import Mathlib

/-!
Verification of the Markdown⇄HTML conversion engine of cherry-studio
(src/renderer/src/utils/markdownConverter.ts).

The engine's own logic (escapeCustomTags, the tipTapKatex block/inline math
rules, the task-list post-pass, the turndown cell/table replacement helpers,
the two facade functions) is embedded directly from the source.  The external
libraries it drives (htmlparser2's event stream, markdown-it's core block /
inline / render loop, turndown's DOM walk, the `he` entity codec and the
`html-tags` vocabulary) are modelled to the extent the embedded code and the
verified inputs exercise them; each model notes its scope in its doc comment.

Strings are processed as `List Char`; `String` wrappers sit at the interfaces.
-/

namespace MdConv

/-! ## Basic character and string utilities -/

/-- JavaScript whitespace class used by `String.prototype.trim` and `\s`
(restricted to the ASCII range, which is all the verified inputs use):
space, tab, line feed, carriage return, vertical tab, form feed. -/
def isJsWs (c : Char) : Bool :=
  c = ' ' || c = '\t' || c = '\n' || c = '\r' || c = '\x0b' || c = '\x0c'

/-- JavaScript `String.prototype.trim` on a character list. -/
def jsTrimL (s : List Char) : List Char :=
  ((s.dropWhile isJsWs).reverse.dropWhile isJsWs).reverse

/-- JavaScript `String.prototype.trim`. -/
def jsTrim (s : String) : String :=
  ⟨jsTrimL s.data⟩

/-- JavaScript `str.slice(a, b)` for `0 ≤ a ≤ b` (the only form used). -/
def subL (s : List Char) (a b : Nat) : List Char :=
  (s.take b).drop a

/-- Does `pat` occur in `s` starting exactly at index `i`? -/
def matchAtB (s pat : List Char) (i : Nat) : Bool :=
  pat.isPrefixOf (s.drop i)

/-- Scanning loop of `findSubFrom` (fuel-driven so that it reduces
definitionally; `s.length + 1` fuel always completes the scan). -/
def findSubFromAux (s pat : List Char) : Nat → Nat → Option Nat
  | 0, _ => none
  | fuel + 1, i =>
    if i ≤ s.length then
      if matchAtB s pat i then some i
      else if i = s.length then none
      else findSubFromAux s pat fuel (i + 1)
    else none

/-- JavaScript `str.indexOf(pat, i)` (as `Option Nat` instead of `-1`). -/
def findSubFrom (s pat : List Char) (i : Nat) : Option Nat :=
  findSubFromAux s pat (s.length + 1) i

/-- JavaScript `str.indexOf(ch, i)` for a single character. -/
def findCharFrom (s : List Char) (c : Char) (i : Nat) : Option Nat :=
  findSubFrom s [c] i

/-- Concatenate `n` copies of `s`. -/
def repeatL (s : List Char) : Nat → List Char
  | 0 => []
  | n + 1 => s ++ repeatL s n

/-- Lower-case an ASCII letter list (models JS `toLowerCase` on tag names). -/
def toLowerL (s : List Char) : List Char :=
  s.map Char.toLower

/-! ## Entity codec (model of the `he` package)

`he.encode(s, { useNamedReferences: true })` maps the five HTML special
characters to named entities and leaves the rest of the printable ASCII
range unchanged; `he.decode` inverts named and hex numeric entities and
passes malformed entities through.  The model covers exactly that range,
which is all the payloads reaching the codec in the verified claims use. -/

/-- Named-reference entity encoding of one character (`he.encode` with
`useNamedReferences: true`, printable-ASCII fragment). -/
def heEncodeNamedChar (c : Char) : List Char :=
  if c = '&' then ('&' :: ('a' :: ('m' :: ('p' :: (';' :: [])))))
  else if c = '<' then ('&' :: ('l' :: ('t' :: (';' :: []))))
  else if c = '>' then ('&' :: ('g' :: ('t' :: (';' :: []))))
  else if c = '"' then ('&' :: ('q' :: ('u' :: ('o' :: ('t' :: (';' :: []))))))
  else [c]

/-- Named-reference entity encoding (`he.encode`, `useNamedReferences: true`). -/
def heEncodeNamed (s : List Char) : List Char :=
  (s.map heEncodeNamedChar).flatten

/-- Entity decoding loop (fuel-driven; each step consumes at least one
character, so `s.length + 1` fuel suffices). -/
def heDecodeAux : Nat → List Char → List Char
  | 0, s => s
  | fuel + 1, s =>
    match s with
    | [] => []
    | c :: rest =>
      if c = '&' then
        if matchAtB rest "lt;".data 0 then '<' :: heDecodeAux fuel (rest.drop 3)
        else if matchAtB rest "gt;".data 0 then '>' :: heDecodeAux fuel (rest.drop 3)
        else if matchAtB rest "amp;".data 0 then '&' :: heDecodeAux fuel (rest.drop 4)
        else if matchAtB rest "quot;".data 0 then '"' :: heDecodeAux fuel (rest.drop 5)
        else if matchAtB rest "#x27;".data 0 then '\'' :: heDecodeAux fuel (rest.drop 5)
        else if matchAtB rest "#39;".data 0 then '\'' :: heDecodeAux fuel (rest.drop 4)
        else '&' :: heDecodeAux fuel rest
      else c :: heDecodeAux fuel rest

/-- Entity decoding (`he.decode`): named and hex forms of the five special
characters; anything else, including a bare `&`, passes through. -/
def heDecodeL (s : List Char) : List Char :=
  heDecodeAux (s.length + 1) s

/-- Entity decoding on `String` (`he.decode`). -/
def heDecode (s : String) : String :=
  ⟨heDecodeL s.data⟩

/-! ## The standard HTML tag vocabulary (the `html-tags` package)

This is the fixed data list of the `html-tags` npm package; the spec calls
it "a fixed closed vocabulary of HTML tag names (~100 entries)". -/

/-- The `html-tags` package's list of standard HTML tag names. -/
def htmlTagsList : List String :=
  ["a", "abbr", "address", "area", "article", "aside", "audio", "b", "base",
   "bdi", "bdo", "blockquote", "body", "br", "button", "canvas", "caption",
   "cite", "code", "col", "colgroup", "data", "datalist", "dd", "del",
   "details", "dfn", "dialog", "div", "dl", "dt", "em", "embed", "fieldset",
   "figcaption", "figure", "footer", "form", "h1", "h2", "h3", "h4", "h5",
   "h6", "head", "header", "hgroup", "hr", "html", "i", "iframe", "img",
   "input", "ins", "kbd", "label", "legend", "li", "link", "main", "map",
   "mark", "math", "menu", "menuitem", "meta", "meter", "nav", "noscript",
   "object", "ol", "optgroup", "option", "output", "p", "picture", "pre",
   "progress", "q", "rp", "rt", "rtc", "ruby", "s", "samp", "script",
   "search", "section", "select", "slot", "small", "source", "span",
   "strong", "style", "sub", "summary", "sup", "svg", "table", "tbody",
   "td", "template", "textarea", "tfoot", "th", "thead", "time", "title",
   "tr", "track", "u", "ul", "var", "video", "wbr"]

/-- Membership of a tag name (as a character list) in the vocabulary;
models `htmlTags.includes(name)`. -/
def isStandardTag (name : List Char) : Bool :=
  htmlTagsList.contains ⟨name⟩

/-! ## Custom-Tag Guard (`escapeCustomTags`)

The handler logic is embedded directly from the source.  The event stream it
reacts to is a model of htmlparser2's `onopentagname` / `onclosetag` events
for well-formed markup: an open-tag event carries the index of the `<` and
of the delimiter that terminates the tag name (`>` for attribute-free tags,
the first whitespace otherwise, matching htmlparser2's `endIndex` at the
time `onopentagname` fires); a close-tag event carries the indices of `<`
and `>`.  Tag names are lower-cased as htmlparser2 does. -/

/-- A tokenizer event: an open tag (name, `<` index, name-delimiter index)
or a close tag (name, `<` index, `>` index). -/
inductive HtmlEvent where
  | tagOpen (name : List Char) (startIdx endIdx : Nat)
  | tagClose (name : List Char) (startIdx endIdx : Nat)
deriving Repr, DecidableEq

/-- Scanning loop of `findTagEnd` (fuel-driven). -/
def findTagEndAux (s : List Char) : Nat → Nat → Option Char → Option Nat
  | 0, _, _ => none
  | fuel + 1, i, quote =>
    if i < s.length then
      let c := s.getD i ' '
      match quote with
      | some q =>
        if c = q then findTagEndAux s fuel (i + 1) none
        else findTagEndAux s fuel (i + 1) (some q)
      | none =>
        if c = '>' then some i
        else if c = '"' || c = '\'' then findTagEndAux s fuel (i + 1) (some c)
        else findTagEndAux s fuel (i + 1) none
    else none

/-- Index of the closing `>` of a tag that starts at `i` (`s.get i = '<'`),
skipping quoted attribute values. -/
def findTagEnd (s : List Char) (i : Nat) (quote : Option Char) : Option Nat :=
  findTagEndAux s (s.length + 1) i quote

/-- Characters that terminate a tag name. -/
def isNameEnd (c : Char) : Bool :=
  isJsWs c || c = '/' || c = '>'

/-- Model of htmlparser2's event stream over well-formed markup, with a fuel
parameter for termination (every step advances the scan position, so
`s.length + 1` units of fuel always complete the scan).
Raw-text elements (`script`, `style`, `textarea`, `title`) swallow their
content up to the matching close tag, as the real tokenizer does. -/
def tokenizeHtmlAux (s : List Char) : Nat → Nat → List HtmlEvent
  | 0, _ => []
  | fuel + 1, i =>
    if i < s.length then
      if s.getD i ' ' = '<' then
        if s.getD (i + 1) ' ' = '/' then
          match findTagEnd s (i + 2) none with
          | some j =>
            let name := toLowerL (subL s (i + 2) j)
            HtmlEvent.tagClose name i j :: tokenizeHtmlAux s fuel (j + 1)
          | none => []
        else if (s.getD (i + 1) ' ').isAlpha then
          match findTagEnd s (i + 1) none with
          | some j =>
            let nameLen := ((subL s (i + 1) (j + 1)).takeWhile (fun c => !isNameEnd c)).length
            let name := toLowerL (subL s (i + 1) (i + 1 + nameLen))
            let ev := HtmlEvent.tagOpen name i (i + 1 + nameLen)
            if name = "script".data || name = "style".data ||
               name = "textarea".data || name = "title".data then
              match findSubFrom s (('<' :: '/' :: name)) (j + 1) with
              | some k => ev :: tokenizeHtmlAux s fuel k
              | none => [ev]
            else
              ev :: tokenizeHtmlAux s fuel (j + 1)
          | none => []
        else tokenizeHtmlAux s fuel (i + 1)
      else tokenizeHtmlAux s fuel (i + 1)
    else []

/-- The htmlparser2 event stream of a document. -/
def tokenizeHtml (s : List Char) : List HtmlEvent :=
  tokenizeHtmlAux s (s.length + 1) 0

/-- Replace `<` and `>` by entities (`tag.replace(/</g,'&lt;').replace(/>/g,'&gt;')`). -/
def escLtGt (s : List Char) : List Char :=
  (s.map (fun c =>
    if c = '<' then ('&' :: ('l' :: ('t' :: (';' :: []))))
    else if c = '>' then ('&' :: ('g' :: ('t' :: (';' :: []))))
    else [c])).flatten

/-- Accumulator of the guard's handler: the output built so far, the cursor
into the input, and the set of already-processed close-tag end positions. -/
structure GuardState where
  result : List Char
  currentPos : Nat
  processed : List Nat
deriving Repr

/-- The tag name a close-tag's raw markup exhibits: the first match of
`/<\/([^>]+)>/` in the slice (source lines 49–51). -/
def closeNameOf (tagHtml : List Char) : Option (List Char) :=
  match findSubFrom tagHtml "</".data 0 with
  | none => none
  | some k =>
    let after := tagHtml.drop (k + 2)
    let name := after.takeWhile (fun c => c ≠ '>')
    if name.length = 0 then none
    else if name.length < after.length then some name
    else none

/-- One step of `escapeCustomTags`'s parser handlers (source lines 17–63):
`onopentagname` escapes the tag's own markup when the name is not standard;
`onclosetag` re-checks the actual markup's name and escapes likewise,
skipping positions already handled. -/
def guardStep (html : List Char) (st : GuardState) (ev : HtmlEvent) : GuardState :=
  match ev with
  | HtmlEvent.tagOpen name startPos endPos =>
    let r := st.result ++ subL html st.currentPos startPos
    let tagHtml := subL html startPos (endPos + 1)
    let r := if !isStandardTag name then r ++ escLtGt tagHtml else r ++ tagHtml
    ⟨r, endPos + 1, st.processed⟩
  | HtmlEvent.tagClose tagname startPos endPos =>
    if st.processed.contains endPos || endPos + 1 ≤ st.currentPos then st
    else
      let processed := endPos :: st.processed
      let actualTagHtml := subL html startPos (endPos + 1)
      let actualTagName := (closeNameOf actualTagHtml).getD tagname
      if !isStandardTag actualTagName then
        ⟨st.result ++ subL html st.currentPos startPos ++ escLtGt actualTagHtml,
         endPos + 1, processed⟩
      else
        ⟨st.result ++ subL html st.currentPos (endPos + 1), endPos + 1, processed⟩

/-- The Custom-Tag Guard (`escapeCustomTags`, source lines 12–73): walk the
event stream with the handler, then flush the remaining input (`onend`). -/
def escapeCustomTags (html : String) : String :=
  let st := (tokenizeHtml html.data).foldl (guardStep html.data) ⟨[], 0, []⟩
  ⟨st.result ++ html.data.drop st.currentPos⟩

/-! ## Markdown parsing engine (model of markdown-it plus the custom rules)

The custom rules (block math, inline math, the task-list post-pass) are
embedded directly from the source.  The surrounding markdown-it machinery —
line table, block rule loop, inline text fallback, token renderer — is
modelled for the fragment the verified inputs exercise: top-level paragraphs,
single-level bullet lists with single-line items, HTML blocks opened by a
lone tag line, and the custom math constructs.  Renderer output (tag/attr
layout, tight-vs-loose newline placement) follows markdown-it's
`renderToken` exactly. -/

/-- A line of the block state: start index, end index (exclusive), and the
count of leading spaces/tabs (markdown-it's `bMarks`/`eMarks`/`tShift`). -/
structure Line where
  bMark : Nat
  eMark : Nat
  tShift : Nat
deriving Repr, DecidableEq

/-- Loop of `normalizeNl` (fuel-driven). -/
def normalizeNlAux : Nat → List Char → List Char
  | 0, s => s
  | fuel + 1, s =>
    match s with
    | [] => []
    | c :: rest =>
      if c = '\r' then
        if rest.headD '\x00' = '\n' then '\n' :: normalizeNlAux fuel (rest.drop 1)
        else '\n' :: normalizeNlAux fuel rest
      else c :: normalizeNlAux fuel rest

/-- Newline normalization markdown-it applies before parsing
(`\r\n` and `\r` become `\n`). -/
def normalizeNl (s : List Char) : List Char :=
  normalizeNlAux (s.length + 1) s

/-- Compute the line table of a source (fuel-driven scan; fuel
`src.length + 1` always suffices since every step advances the position). -/
def computeLinesAux (src : List Char) : Nat → Nat → List Line
  | 0, _ => []
  | fuel + 1, pos =>
    if pos ≤ src.length then
      let lineChars := (src.drop pos).takeWhile (fun c => c ≠ '\n')
      let e := pos + lineChars.length
      let t := (lineChars.takeWhile (fun c => c = ' ' || c = '\t')).length
      ⟨pos, e, t⟩ :: (if e < src.length then computeLinesAux src fuel (e + 1) else [])
    else []

/-- The line table of a source. -/
def computeLines (src : List Char) : List Line :=
  computeLinesAux src (src.length + 1) 0

/-- markdown-it's `state.isEmpty(line)`: only spaces/tabs before the end. -/
def isBlankLine (L : Line) : Bool :=
  L.eMark ≤ L.bMark + L.tShift

/-- Inline tokens (children of an `inline` token).  In the verified fragment
inline children are flat: `text`, `math_inline`, or `html_inline`. -/
structure ITok where
  ttype : String
  content : String
deriving Repr, DecidableEq

/-- A markdown-it token: type, tag, attributes, content, inline children,
hidden flag, nesting (+1 open / −1 close / 0), block flag. -/
structure Tok where
  ttype : String := ""
  tag : String := ""
  attrs : List (String × String) := []
  content : String := ""
  children : List ITok := []
  hidden : Bool := false
  nesting : Int := 0
  block : Bool := false
deriving Repr, DecidableEq

/-- markdown-it `Token.attrSet`: replace the attribute if present, else
append it. -/
def setAttrL : List (String × String) → String → String → List (String × String)
  | [], n, v => [(n, v)]
  | (a, b) :: rest, n, v =>
    if a = n then (n, v) :: rest else (a, b) :: setAttrL rest n v

/-- Attribute update on a token. -/
def Tok.attrSet (t : Tok) (n v : String) : Tok :=
  { t with attrs := setAttrL t.attrs n v }

/-! ### Block math rule (`tipTapKatexPlugin`, source lines 203–295) -/

/-- The multiline scan of the block-math rule (source lines 232–280): walk
the lines after the opening line; a line containing `$$` closes the block
(content = opening-line remainder, middle lines, and the part before the
closing), and a line starting with `$$` is the alternative closing form.
`mids` accumulates the lines already passed.  Returns the token content and
the number of lines consumed. -/
def mathBlockScan (src : List Char) (startL : Line) (mids : List Line) :
    List Line → Option (List Char × Nat)
  | [] => none
  | L :: rest =>
    let lineStart := L.bMark + L.tShift
    let lineEnd := L.eMark
    let line := subL src lineStart lineEnd
    match findSubFrom line "$$".data 0 with
    | some closingPos =>
      let firstLineStart := startL.bMark + startL.tShift + 2
      let firstLineEnd := startL.eMark
      let firstLineContent := subL src firstLineStart firstLineEnd
      let acc₁ : List (List Char) :=
        if jsTrimL firstLineContent ≠ [] then [firstLineContent] else []
      let acc₂ := acc₁ ++ mids.map (fun M => subL src (M.bMark + M.tShift) M.eMark)
      let lastLineContent := line.take closingPos
      let acc₃ := acc₂ ++ (if jsTrimL lastLineContent ≠ [] then [lastLineContent] else [])
      some (jsTrimL (List.intercalate ['\n'] acc₃), mids.length + 2)
    | none =>
      if lineStart + 2 ≤ lineEnd && src.getD lineStart ' ' = '$' &&
         src.getD (lineStart + 1) ' ' = '$' then
        -- alternative closing pattern (source lines 269–279); unreachable in
        -- fact, since such a line also contains `$$`, but kept for fidelity
        some (jsTrimL (subL src (startL.bMark + startL.tShift + 2) L.bMark),
              mids.length + 2)
      else mathBlockScan src startL (mids ++ [L]) rest

/-- The block-math rule (source lines 206–294) on the line suffix beginning
at the current line; returns the token content and the number of lines
consumed, or `none` when the rule rejects the construct. -/
def mathBlockRule (src : List Char) : List Line → Option (List Char × Nat)
  | [] => none
  | startL :: rest =>
    let startPos := startL.bMark + startL.tShift
    let maxPos := startL.eMark
    if startPos + 2 > maxPos then none
    else if !(src.getD startPos ' ' = '$' && src.getD (startPos + 1) ' ' = '$') then none
    else
      match findSubFrom src "$$".data (startPos + 2) with
      | some j =>
        if j + 2 ≤ maxPos then some (jsTrimL (subL src (startPos + 2) j), 1)
        else mathBlockScan src startL [] rest
      | none => mathBlockScan src startL [] rest

/-! ### Bullet list rule (model of markdown-it's list rule, single-line items) -/

/-- Content of a bullet-list item line (`- ` marker), if the line is one. -/
def itemContentOf (src : List Char) (L : Line) : Option (List Char) :=
  let lineStart := L.bMark + L.tShift
  if src.getD lineStart '\x00' = '-' then
    if lineStart + 1 = L.eMark then some []
    else if src.getD (lineStart + 1) '\x00' = ' ' || src.getD (lineStart + 1) '\x00' = '\t' then
      some (subL src (lineStart + 2) L.eMark)
    else none
  else none

/-- Collect consecutive item lines (and blank separators, which make the
list loose); stops at the first line that is neither.  Returns the item
contents, lines consumed, and the looseness flag. -/
def listCollect (src : List Char) (acc : List (List Char)) (consumed : Nat)
    (loose pendingBlank : Bool) : List Line → List (List Char) × Nat × Bool
  | [] => (acc.reverse, consumed, loose)
  | L :: rest =>
    if isBlankLine L then listCollect src acc (consumed + 1) loose true rest
    else
      match itemContentOf src L with
      | some c =>
        listCollect src (c :: acc) (consumed + 1)
          (loose || (pendingBlank && !acc.isEmpty)) false rest
      | none => (acc.reverse, consumed, loose)

/-- Tokens of one list item (tight lists hide the inner paragraph). -/
def listItemToks (content : List Char) (tight : Bool) : List Tok :=
  [{ ttype := "list_item_open", tag := "li", nesting := 1, block := true },
   { ttype := "paragraph_open", tag := "p", hidden := tight, nesting := 1, block := true },
   { ttype := "inline", content := ⟨jsTrimL content⟩ },
   { ttype := "paragraph_close", tag := "p", hidden := tight, nesting := -1, block := true },
   { ttype := "list_item_close", tag := "li", nesting := -1, block := true }]

/-- The bullet-list rule: recognizes a run of `- ` item lines. -/
def listRule (src : List Char) : List Line → Option (List Tok × Nat)
  | [] => none
  | L :: rest =>
    match itemContentOf src L with
    | none => none
    | some _ =>
      let (items, consumed, loose) := listCollect src [] 0 false false (L :: rest)
      let tight := !loose
      some ({ ttype := "bullet_list_open", tag := "ul", nesting := 1, block := true } ::
            (items.map (fun c => listItemToks c tight)).flatten ++
            [{ ttype := "bullet_list_close", tag := "ul", nesting := -1, block := true }],
            consumed)

/-! ### HTML block rule (model of markdown-it's `html_block`, kinds 6 and 7) -/

/-- markdown-it's `html_blocks` name list (block-level tag names for HTML
sequence kind 6). -/
def htmlBlocksNames : List String :=
  ["address", "article", "aside", "base", "basefont", "blockquote", "body",
   "caption", "center", "col", "colgroup", "dd", "details", "dialog", "dir",
   "div", "dl", "dt", "fieldset", "figcaption", "figure", "footer", "form",
   "frame", "frameset", "h1", "h2", "h3", "h4", "h5", "h6", "head", "header",
   "hr", "html", "iframe", "legend", "li", "link", "main", "menu", "menuitem",
   "nav", "noframes", "ol", "optgroup", "option", "p", "param", "section",
   "source", "summary", "table", "tbody", "td", "tfoot", "th", "thead",
   "title", "tr", "track", "ul"]

/-- Kind-6 opening: `</?` + a name from `htmlBlocksNames` + lookahead
whitespace, `>`, `/>`, or end of line. -/
def kind6Match (line : List Char) : Bool :=
  match line with
  | '<' :: rest =>
    let rest := if rest.headD '\x00' = '/' then rest.drop 1 else rest
    let name := rest.takeWhile (fun c => c.isAlpha || c.isDigit)
    let after := rest.drop name.length
    htmlBlocksNames.contains ⟨toLowerL name⟩ &&
      (after.isEmpty || isJsWs (after.headD '\x00') || after.headD '\x00' = '>' ||
       (after.headD '\x00' = '/' && after.getD 1 '\x00' = '>'))
  | _ => false

/-- Characters of an HTML tag name in the kind-7 sequence. -/
def tagNameChar (c : Char) : Bool :=
  c.isAlpha || c.isDigit || c = '-'

/-- Kind-7 opening (attribute-free fragment): a lone complete open or close
tag, optionally self-closing, with only whitespace after it. -/
def kind7Match (line : List Char) : Bool :=
  match line with
  | '<' :: '/' :: rest =>
    let name := rest.takeWhile tagNameChar
    let after := (rest.drop name.length).dropWhile isJsWs
    !name.isEmpty && (name.headD '\x00').isAlpha && after.take 1 = ['>'] &&
      ((after.drop 1).dropWhile isJsWs).isEmpty
  | '<' :: rest =>
    let name := rest.takeWhile tagNameChar
    let afterName := rest.drop name.length
    let after := if afterName.headD '\x00' = '/' then afterName.drop 1 else afterName
    !name.isEmpty && (name.headD '\x00').isAlpha && after.take 1 = ['>'] &&
      ((after.drop 1).dropWhile isJsWs).isEmpty
  | _ => false

/-- The `html_block` rule (kinds 6/7): the opening line plus everything to
the next blank line, kept verbatim with trailing newlines. -/
def htmlBlockRule (src : List Char) : List Line → Option (List Char × Nat)
  | [] => none
  | L :: rest =>
    let line := subL src (L.bMark + L.tShift) L.eMark
    if kind6Match line || kind7Match line then
      let more := rest.takeWhile (fun M => !isBlankLine M)
      let allL := L :: more
      some (((allL.map (fun M => subL src M.bMark M.eMark ++ ['\n']))).flatten,
            allL.length)
    else none

/-! ### Paragraph rule and the block loop -/

/-- The paragraph rule: lines up to the next blank line, joined with `\n`
and trimmed.  (markdown-it also lets some rules interrupt a paragraph; no
verified input exercises that.) -/
def paragraphRule (src : List Char) : List Line → List Char × Nat
  | [] => ([], 0)
  | L :: rest =>
    let more := rest.takeWhile (fun M => !isBlankLine M)
    let allL := L :: more
    (jsTrimL (List.intercalate ['\n'] (allL.map (fun M => subL src M.bMark M.eMark))),
     allL.length)

/-- The block tokenizer loop: skip blank lines, then try the rules in
markdown-it's effective order for this fragment — block math (registered
before `fence`), list, `html_block`, paragraph.  Fuel-driven; every rule
consumes at least one line, so `lines.length + 1` fuel suffices. -/
def parseBlocksAux (src : List Char) : Nat → List Line → List Tok
  | 0, _ => []
  | _, [] => []
  | fuel + 1, L :: rest =>
    if isBlankLine L then parseBlocksAux src fuel rest
    else
      match mathBlockRule src (L :: rest) with
      | some (content, consumed) =>
        { ttype := "math_block", tag := "div", content := ⟨content⟩, block := true } ::
          parseBlocksAux src fuel ((L :: rest).drop consumed)
      | none =>
        match listRule src (L :: rest) with
        | some (toks, consumed) => toks ++ parseBlocksAux src fuel ((L :: rest).drop consumed)
        | none =>
          match htmlBlockRule src (L :: rest) with
          | some (content, consumed) =>
            { ttype := "html_block", content := ⟨content⟩, block := true } ::
              parseBlocksAux src fuel ((L :: rest).drop consumed)
          | none =>
            let (content, consumed) := paragraphRule src (L :: rest)
            { ttype := "paragraph_open", tag := "p", nesting := 1, block := true } ::
            { ttype := "inline", content := ⟨content⟩ } ::
            { ttype := "paragraph_close", tag := "p", nesting := -1, block := true } ::
              parseBlocksAux src fuel ((L :: rest).drop consumed)

/-! ### Inline math rule (`tipTapKatexPlugin`, source lines 305–333) -/

/-- The inline-math rule: at a `$`, find the next `$`; a newline inside the
candidate span aborts the match.  Returns trimmed content and the new
position. -/
def mathInlineRule (src : List Char) (pos posMax : Nat) : Option (List Char × Nat) :=
  if pos ≥ posMax then none
  else if src.getD pos '\x00' ≠ '$' then none
  else
    match findCharFrom src '$' (pos + 1) with
    | none => none
    | some close =>
      if close > posMax then none
      else
        let content := subL src (pos + 1) close
        if content.contains '\n' then none
        else some (jsTrimL content, close + 1)

/-- The inline tokenizer: try the math rule, else push the character into
the pending text run (markdown-it's fallback).  Fuel-driven; each step
advances the position. -/
def flushPending (pending : List Char) (acc : List ITok) : List ITok :=
  if pending.isEmpty then acc else acc ++ [⟨"text", ⟨pending⟩⟩]

/-- Inline tokenization loop. -/
def parseInlineAux (src : List Char) : Nat → Nat → List Char → List ITok → List ITok
  | 0, _, pending, acc => flushPending pending acc
  | fuel + 1, pos, pending, acc =>
    if pos < src.length then
      match mathInlineRule src pos src.length with
      | some (content, newPos) =>
        parseInlineAux src fuel newPos []
          (flushPending pending acc ++ [⟨"math_inline", ⟨content⟩⟩])
      | none => parseInlineAux src fuel (pos + 1) (pending ++ [src.getD pos '\x00']) acc
    else flushPending pending acc

/-- Inline tokenization of an inline token's content. -/
def parseInline (s : String) : List ITok :=
  parseInlineAux s.data (s.data.length + 1) 0 [] []

/-! ### Task-list post-pass (`taskListPlugin`, source lines 110–175) -/

/-- The plugin's own default for the `label` option
(source line 111: `const { label = false } = options`). -/
def taskListDefaultLabel : Bool := false

/-- The label flag the conversion facade constructs the engine with
(source lines 343–345: `md.use(taskListPlugin, { label: true })`). -/
def facadeTaskListLabel : Bool := true

/-- The test `/^\s*\[[ x]\]\s/.test(content)` (source line 123). -/
def taskTestL (s : List Char) : Bool :=
  match s.dropWhile isJsWs with
  | '[' :: c :: ']' :: d :: _ => (c = ' ' || c = 'x') && isJsWs d
  | _ => false

/-- The match `content.match(/^(\s*)\[([x ])\]\s+(.*)/)` (source line 140):
returns the indent group, the check character, and the remaining text
(`.` stops at a newline). -/
def taskMatchL (s : List Char) : Option (List Char × Char × List Char) :=
  let ind := s.takeWhile isJsWs
  match s.dropWhile isJsWs with
  | '[' :: c :: ']' :: r2 =>
    if c = 'x' || c = ' ' then
      if (r2.takeWhile isJsWs).isEmpty then none
      else some (ind, c, (r2.dropWhile isJsWs).takeWhile (fun ch => ch ≠ '\n'))
    else none
  | _ => none

/-- The checkbox markup the pass inserts
(`<input type="checkbox"${isChecked ? ' checked' : ''} disabled>`). -/
def checkboxHtml (isChecked : Bool) : String :=
  "<input type=\"checkbox\"" ++ (if isChecked then " checked" else "") ++ " disabled>"

/-- The label-wrapped markup used when the `label` option is on
(source line 160). -/
def labelHtml (isChecked : Bool) (content : String) : String :=
  "<label>" ++ checkboxHtml isChecked ++ " " ++ content ++ "</label>"

/-- The forward scan for task items inside a list (source lines 121–127):
inline tokens up to the matching `bullet_list_close`. -/
def taskScanB : List Tok → Bool
  | [] => false
  | t :: rest =>
    if t.ttype = "bullet_list_close" then false
    else if t.ttype = "inline" && taskTestL t.content.data then true
    else taskScanB rest

/-- The backward scan to the parent `list_item_open` (source lines 146–151),
here over the already-processed tokens in most-recent-first order. -/
def patchParent (done : List Tok) (v : String) : List Tok :=
  match done with
  | [] => []
  | t :: rest =>
    if t.ttype = "list_item_open" then t.attrSet "data-checked" v :: rest
    else t :: patchParent rest v

/-- The task-list core pass (source lines 112–174), as a left-to-right walk
with the processed prefix kept reversed in `done`.  Mirrors the source's
branch structure: a `bullet_list_open` containing a task item is annotated
and opens the `inside_task_list` region; every `list_item_open` inside is
annotated; a matching `inline` inside patches its parent item's checked state
and is rewritten to checkbox (plus text) or label children. -/
def taskPassAux (label : Bool) (done : List Tok) (inside : Bool) : List Tok → List Tok
  | [] => done.reverse
  | t :: rest =>
    if t.ttype = "bullet_list_open" then
      if taskScanB rest then
        taskPassAux label
          (((t.attrSet "data-type" "taskList").attrSet "class" "task-list") :: done) true rest
      else taskPassAux label (t :: done) inside rest
    else if t.ttype = "bullet_list_close" && inside then
      taskPassAux label (t :: done) false rest
    else if t.ttype = "list_item_open" && inside then
      taskPassAux label
        (((t.attrSet "data-type" "taskItem").attrSet "class" "task-list-item") :: done)
        inside rest
    else if t.ttype = "inline" && inside then
      match taskMatchL t.content.data with
      | some (_ind, check, contentL) =>
        let content : String := ⟨contentL⟩
        let isChecked := check.toLower = 'x'
        let patched := patchParent done (if isChecked then "true" else "false")
        let children :=
          if label then [ITok.mk "html_inline" (labelHtml isChecked content)]
          else [ITok.mk "html_inline" (checkboxHtml isChecked),
                ITok.mk "text" (" " ++ content)]
        taskPassAux label ({ t with content := content, children := children } :: patched)
          inside rest
      | none => taskPassAux label (t :: done) inside rest
    else taskPassAux label (t :: done) inside rest

/-- The task-list pass over a finished token stream. -/
def taskListPass (label : Bool) (toks : List Tok) : List Tok :=
  taskPassAux label [] false toks

/-! ### Renderer (markdown-it defaults plus the custom math renderers) -/

/-- markdown-it's `escapeHtml` (`&`, `<`, `>`, `"`). -/
def escapeHtmlL (s : List Char) : List Char :=
  (s.map (fun c =>
    if c = '&' then "&amp;".data
    else if c = '<' then "&lt;".data
    else if c = '>' then "&gt;".data
    else if c = '"' then "&quot;".data
    else [c])).flatten

/-- markdown-it's `renderAttrs`. -/
def renderAttrs (attrs : List (String × String)) : List Char :=
  (attrs.map (fun p =>
    ' ' :: (p.1.data ++ '=' :: '"' :: (escapeHtmlL p.2.data ++ ['"'])))).flatten

/-- The custom `math_block` renderer (source lines 298–302). -/
def mathBlockRender (content : String) : List Char :=
  "<div data-latex=\"".data ++ heEncodeNamed content.data ++
    "\" data-type=\"block-math\"></div>".data

/-- The custom `math_inline` renderer (source lines 336–340). -/
def mathInlineRender (content : String) : List Char :=
  "<span data-latex=\"".data ++ heEncodeNamed content.data ++
    "\" data-type=\"inline-math\"></span>".data

/-- Rendering of an inline token's children: text is HTML-escaped,
`html_inline` passes through raw, `math_inline` uses the custom renderer. -/
def renderInline (children : List ITok) : List Char :=
  (children.map (fun c =>
    if c.ttype = "text" then escapeHtmlL c.content.data
    else if c.ttype = "math_inline" then mathInlineRender c.content
    else c.content.data)).flatten

/-- markdown-it's `renderToken`: open/close tag with attributes, the
block-level newline placement, and the extra newline after a hidden
predecessor. -/
def renderToken (prev? : Option Tok) (t : Tok) (next? : Option Tok) : List Char :=
  if t.hidden then []
  else
    let pre : List Char :=
      match prev? with
      | some p => if t.block && t.nesting ≠ -1 && p.hidden then ['\n'] else []
      | none => []
    let core := (if t.nesting = -1 then "</".data else ['<']) ++ t.tag.data ++
      renderAttrs t.attrs
    let needLf :=
      if t.block then
        if t.nesting = 1 then
          match next? with
          | some nt =>
            if nt.ttype = "inline" || nt.hidden then false
            else if nt.nesting = -1 && nt.tag = t.tag then false
            else true
          | none => true
        else true
      else false
    pre ++ core ++ (if needLf then ">\n".data else ['>'])

/-- The render loop over the token stream. -/
def renderSeq (prev? : Option Tok) : List Tok → List Char
  | [] => []
  | t :: rest =>
    let piece :=
      if t.ttype = "inline" then renderInline t.children
      else if t.ttype = "math_block" then mathBlockRender t.content
      else if t.ttype = "html_block" then t.content.data
      else renderToken prev? t rest.head?
    piece ++ renderSeq (some t) rest

/-- `md.render`: normalize, tokenize blocks, tokenize inline content, run
the task-list core pass (with the facade's label flag), render. -/
def mdRender (s : String) : String :=
  let src := normalizeNl s.data
  let lines := computeLines src
  let blocks := parseBlocksAux src (lines.length + 1) lines
  let withInline := blocks.map (fun t =>
    if t.ttype = "inline" then { t with children := parseInline t.content } else t)
  ⟨renderSeq none (taskListPass facadeTaskListLabel withInline)⟩

/-! ## The markdown → HTML facade (`markdownToHtml`, source lines 620–658) -/

/-- Attempted match of the image regex
`/!\[([^\]]*)\]\(([^)]+?)(?:\s+"([^"]*)")?\)/` at the start of `s`:
returns alt text, source, optional title, and the unmatched remainder. -/
def imageMatchAt (s : List Char) :
    Option (List Char × List Char × Option (List Char) × List Char) :=
  if s.take 2 = ['!', '['] then
    let rest := s.drop 2
    let alt := rest.takeWhile (fun c => c ≠ ']')
    let afterAlt := rest.drop alt.length
    match afterAlt with
    | ']' :: '(' :: inner =>
      let inside := inner.takeWhile (fun c => c ≠ ')')
      let afterInside := inner.drop inside.length
      if inside.isEmpty then none
      else
        match afterInside with
        | ')' :: tail =>
          -- the lazy source group: the earliest split where the remainder is
          -- exactly `\s+"title"`; otherwise the whole inside is the source
          let split := (List.range inside.length).findSome? (fun p =>
            if p = 0 then none
            else
              let srcPart := inside.take p
              let rem := inside.drop p
              let ws := rem.takeWhile isJsWs
              let rem₂ := rem.drop ws.length
              if ws.isEmpty then none
              else
                match rem₂ with
                | '"' :: r3 =>
                  let title := r3.takeWhile (fun c => c ≠ '"')
                  if r3.drop title.length = ['"'] then some (srcPart, title)
                  else none
                | _ => none)
          match split with
          | some (srcPart, title) => some (alt, srcPart, some title, tail)
          | none => some (alt, inside, none, tail)
        | _ => none
    | _ => none
  else none

/-- The replacement for one image match (source lines 630–639): rewrite to
an `<img>` tag only for `file://` sources, otherwise keep the matched text. -/
def imageReplacement (alt srcPart : List Char) (title : Option (List Char))
    (matched : List Char) : List Char :=
  if matchAtB srcPart "file://".data 0 then
    "<img src=\"".data ++ jsTrimL srcPart ++ "\" alt=\"".data ++ alt ++ ['"'] ++
      (match title with
       | some t => " title=\"".data ++ t ++ ['"']
       | none => []) ++ " />".data
  else matched

/-- The global image-rewrite pre-pass (source lines 628–640), fuel-driven. -/
def imagePreprocessAux : Nat → List Char → List Char
  | 0, s => s
  | fuel + 1, s =>
    match s with
    | [] => []
    | c :: rest =>
      match imageMatchAt s with
      | some (alt, srcPart, title, tail) =>
        let matched := s.take (s.length - tail.length)
        imageReplacement alt srcPart title matched ++ imagePreprocessAux fuel tail
      | none => c :: imagePreprocessAux fuel rest

/-- The image pre-pass on a string. -/
def imagePreprocess (s : List Char) : List Char :=
  imagePreprocessAux (s.length + 1) s

/-- The single-tag pattern `/^<([a-zA-Z][^>\s]*)\/?>$/` (source line 645)
with JavaScript's greedy semantics: the captured group is everything between
`<` and the final `>` (including a trailing `/` of a self-closing tag),
provided it starts with a letter and contains no `>` or whitespace. -/
def singleTagCapture (s : List Char) : Option (List Char) :=
  match s with
  | '<' :: c :: rest =>
    if c.isAlpha && rest.getLastD '\x00' = '>' &&
       (rest.dropLast.all (fun ch => ch ≠ '>' && !isJsWs ch)) then
      some (c :: rest.dropLast)
    else none
  | _ => none

/-- The markdown → HTML facade (source lines 620–658): guard empty/absent
input, run the image pre-pass, render, and wrap a lone rendered custom tag
in a paragraph.  The source's try/catch is modelled by totality. -/
def markdownToHtml (input : Option String) : String :=
  match input with
  | none => ""
  | some markdown =>
    if markdown = "" then ""
    else
      let processedMarkdown : String := ⟨imagePreprocess markdown.data⟩
      let html := mdRender processedMarkdown
      let trimmedMarkdown := jsTrim processedMarkdown
      if jsTrim html = trimmedMarkdown then
        match singleTagCapture trimmedMarkdown.data with
        | some tagName =>
          if htmlTagsList.contains ⟨toLowerL tagName⟩ then html
          else "<p>" ++ html ++ "</p>"
        | none => html
      else html

/-! ## HTML-to-Markdown serializer (model of turndown plus the custom rules)

The DOM is the standard element/text tree; parsing decodes entities in text
and attribute values as a browser does.  The walker implements turndown's
dispatch: blank elements go to the engine's custom `blankReplacement`
(embedded from source lines 358–391), the custom `br`/`u`/`del`/`s` rules
and the default block/inline replacement cover the rest of the verified
inputs.  Flanking-whitespace extraction and the whitespace-collapse
pre-pass are not modelled; no verified input exercises them. -/

mutual

/-- A DOM node (element or text).  Children are a `DForest` rather than a
`List DNode` so that recursion over the tree is structural and reduces
definitionally. -/
inductive DNode where
  | el (tag : String) (attrs : List (String × String)) (children : DForest)
  | txt (s : String)
deriving Repr

/-- A sequence of sibling DOM nodes. -/
inductive DForest where
  | nil
  | cons (head : DNode) (tail : DForest)
deriving Repr

end

/-- Void elements (per the HTML parser and turndown). -/
def voidTags : List String :=
  ["area", "base", "br", "col", "command", "embed", "hr", "img", "input",
   "keygen", "link", "meta", "param", "source", "track", "wbr"]

/-- Elements whose content is raw text for the tokenizer. -/
def rawTextTags : List String :=
  ["script", "style", "textarea", "title"]

/-- turndown's `blockElements` (lower-cased). -/
def blockElems : List String :=
  ["address", "article", "aside", "audio", "blockquote", "body", "canvas",
   "center", "dd", "dir", "div", "dl", "dt", "fieldset", "figcaption",
   "figure", "footer", "form", "frameset", "h1", "h2", "h3", "h4", "h5",
   "h6", "header", "hgroup", "hr", "html", "isindex", "li", "main", "menu",
   "nav", "noframes", "noscript", "ol", "output", "p", "pre", "section",
   "table", "tbody", "td", "tfoot", "th", "thead", "tr", "ul"]

/-- turndown's `meaningfulWhenBlankElements` (lower-cased). -/
def meaningfulWhenBlankElems : List String :=
  ["a", "table", "thead", "tbody", "tfoot", "th", "td", "iframe", "script",
   "audio", "video"]

/-- Attribute lookup (`getAttribute`, as an `Option`). -/
def getAttrD (attrs : List (String × String)) (n : String) : Option String :=
  (attrs.find? (fun p => p.1 = n)).map (fun p => p.2)

/-- Attribute parsing of the HTML parser model: returns the attributes, the
self-closing flag, and the remainder after the closing `>`. -/
def parseAttrsAux : Nat → List Char → List (String × String) →
    (List (String × String) × Bool × List Char)
  | 0, s, acc => (acc.reverse, false, s)
  | fuel + 1, s, acc =>
    let s := s.dropWhile isJsWs
    match s with
    | [] => (acc.reverse, false, [])
    | '>' :: rest => (acc.reverse, false, rest)
    | '/' :: '>' :: rest => (acc.reverse, true, rest)
    | _ =>
      let name := s.takeWhile (fun c => !isJsWs c && c ≠ '=' && c ≠ '>' && c ≠ '/')
      let s₂ := (s.drop name.length).dropWhile isJsWs
      match s₂ with
      | '=' :: s₃ =>
        let s₃ := s₃.dropWhile isJsWs
        match s₃ with
        | '"' :: v =>
          let value := v.takeWhile (fun c => c ≠ '"')
          parseAttrsAux fuel (v.drop (value.length + 1))
            ((⟨name⟩, ⟨heDecodeL value⟩) :: acc)
        | '\'' :: v =>
          let value := v.takeWhile (fun c => c ≠ '\'')
          parseAttrsAux fuel (v.drop (value.length + 1))
            ((⟨name⟩, ⟨heDecodeL value⟩) :: acc)
        | _ =>
          let value := s₃.takeWhile (fun c => !isJsWs c && c ≠ '>')
          parseAttrsAux fuel (s₃.drop value.length) ((⟨name⟩, ⟨heDecodeL value⟩) :: acc)
      | _ =>
        if name.isEmpty then (acc.reverse, false, s.drop 1)
        else parseAttrsAux fuel s₂ ((⟨name⟩, "") :: acc)

/-- The DOM parser model (fuel-driven recursive descent over well-formed
markup): returns the sibling nodes parsed and the remainder at the first
unmatched close tag. -/
def parseNodesAux : Nat → List Char → (DForest × List Char)
  | 0, s => (DForest.nil, s)
  | fuel + 1, s =>
    match s with
    | [] => (DForest.nil, [])
    | c0 :: rest0 =>
      if c0 = '<' then
        if rest0.headD '\x00' = '/' then (DForest.nil, c0 :: rest0)
        else if (rest0.headD '\x00').isAlpha then
          let name := toLowerL (rest0.takeWhile (fun ch => !isNameEnd ch))
          let afterName := rest0.drop name.length
          let (attrs, selfClosing, afterTag) := parseAttrsAux (afterName.length + 1) afterName []
          let tagS : String := ⟨name⟩
          if selfClosing || voidTags.contains tagS then
            let (siblings, rem) := parseNodesAux fuel afterTag
            (DForest.cons (DNode.el tagS attrs DForest.nil) siblings, rem)
          else if rawTextTags.contains tagS then
            match findSubFrom afterTag ('<' :: '/' :: name) 0 with
            | some k =>
              let inner := afterTag.take k
              let afterClose :=
                match findCharFrom afterTag '>' k with
                | some g => afterTag.drop (g + 1)
                | none => []
              let (siblings, rem) := parseNodesAux fuel afterClose
              (DForest.cons
                (DNode.el tagS attrs (DForest.cons (DNode.txt ⟨heDecodeL inner⟩) DForest.nil))
                siblings, rem)
            | none =>
              (DForest.cons
                (DNode.el tagS attrs (DForest.cons (DNode.txt ⟨heDecodeL afterTag⟩) DForest.nil))
                DForest.nil, [])
          else
            let (children, rem) := parseNodesAux fuel afterTag
            let afterClose :=
              match findCharFrom rem '>' 0 with
              | some g => rem.drop (g + 1)
              | none => []
            let (siblings, rem₂) := parseNodesAux fuel afterClose
            (DForest.cons (DNode.el tagS attrs children) siblings, rem₂)
        else
          -- a lone `<` that opens no tag is text
          let (siblings, rem) := parseNodesAux fuel rest0
          (DForest.cons (DNode.txt ⟨heDecodeL [c0]⟩) siblings, rem)
      else
        let text := (c0 :: rest0).takeWhile (fun ch => ch ≠ '<')
        let (siblings, rem) := parseNodesAux fuel ((c0 :: rest0).drop text.length)
        (DForest.cons (DNode.txt ⟨heDecodeL text⟩) siblings, rem)

/-- Parse an HTML string into a DOM forest. -/
def parseHtmlDom (s : List Char) : DForest :=
  (parseNodesAux (2 * s.length + 2) s).1

/-- Concatenated text of a forest (`textContent`). -/
def nodeTextList : DForest → List Char
  | DForest.nil => []
  | DForest.cons (DNode.txt s) rest => s.data ++ nodeTextList rest
  | DForest.cons (DNode.el _ _ c) rest => nodeTextList c ++ nodeTextList rest

/-- Does the forest contain an element (at any depth) whose tag satisfies
the predicate? -/
def anyElemTag (p : String → Bool) : DForest → Bool
  | DForest.nil => false
  | DForest.cons (DNode.txt _) rest => anyElemTag p rest
  | DForest.cons (DNode.el t _ c) rest =>
    p t || anyElemTag p c || anyElemTag p rest

/-- First descendant element (document order) with `data-type` equal to `v`
(`querySelector('[data-type="v"]')`, which searches descendants only). -/
def firstDescType (v : String) : DForest → Option DNode
  | DForest.nil => none
  | DForest.cons (DNode.txt _) rest => firstDescType v rest
  | DForest.cons (DNode.el t a c) rest =>
    if getAttrD a "data-type" = some v then some (DNode.el t a c)
    else
      match firstDescType v c with
      | some r => some r
      | none => firstDescType v rest

/-- Number of descendant elements with `data-type` equal to `v`
(`querySelectorAll('[data-type="v"]').length`). -/
def countDescType (v : String) : DForest → Nat
  | DForest.nil => 0
  | DForest.cons (DNode.txt _) rest => countDescType v rest
  | DForest.cons (DNode.el _ a c) rest =>
    (if getAttrD a "data-type" = some v then 1 else 0) + countDescType v c +
      countDescType v rest

/-- Number of element children (`el.children.length`). -/
def elemChildCount : DForest → Nat
  | DForest.nil => 0
  | DForest.cons (DNode.txt _) rest => elemChildCount rest
  | DForest.cons (DNode.el _ _ _) rest => 1 + elemChildCount rest

/-- turndown's `isBlank`: not void or meaningful-when-blank, whitespace-only
text content, and no void or meaningful-when-blank descendant. -/
def isBlankDom (tag : String) (children : DForest) : Bool :=
  !voidTags.contains tag && !meaningfulWhenBlankElems.contains tag &&
  (nodeTextList children).all isJsWs &&
  !anyElemTag (fun t => voidTags.contains t || meaningfulWhenBlankElems.contains t) children

/-- The engine's custom `blankReplacement` (source lines 358–391): math
containers and single-math-span paragraphs emit their markdown form; other
blank nodes collapse to a block/inline separator. -/
def blankReplacement (n : DNode) : List Char :=
  match n with
  | DNode.txt _ => []
  | DNode.el tag attrs children =>
    if tag = "div" && getAttrD attrs "data-type" = some "block-math" then
      "$$".data ++ heDecodeL ((getAttrD attrs "data-latex").getD "").data ++ "$$\n\n".data
    else if tag = "span" && getAttrD attrs "data-type" = some "inline-math" then
      ['$'] ++ heDecodeL ((getAttrD attrs "data-latex").getD "").data ++ ['$']
    else if tag = "p" && (firstDescType "inline-math" children).isSome then
      if countDescType "inline-math" children = 1 && elemChildCount children = 1 then
        match firstDescType "inline-math" children with
        | some (DNode.el _ a _) =>
          ['$'] ++ heDecodeL ((getAttrD a "data-latex").getD "").data ++ ['$']
        | _ => if blockElems.contains tag then "\n\n".data else []
      else if blockElems.contains tag then "\n\n".data else []
    else if blockElems.contains tag then "\n\n".data else []

/-- turndown's markdown escaping of text nodes, as a single line-aware scan
equivalent to its sequence of regex replacements (fuel-driven). -/
def escapeMdAux : Nat → Bool → List Char → List Char
  | 0, _, s => s
  | fuel + 1, atStart, s =>
    match s with
    | [] => []
    | c :: rest =>
      if c = '\n' then '\n' :: escapeMdAux fuel true rest
      else if c = '\\' then '\\' :: '\\' :: escapeMdAux fuel false rest
      else if c = '*' then '\\' :: '*' :: escapeMdAux fuel false rest
      else if c = '`' then '\\' :: '`' :: escapeMdAux fuel false rest
      else if c = '[' then '\\' :: '[' :: escapeMdAux fuel false rest
      else if c = ']' then '\\' :: ']' :: escapeMdAux fuel false rest
      else if c = '_' then '\\' :: '_' :: escapeMdAux fuel false rest
      else if atStart && c = '-' then '\\' :: '-' :: escapeMdAux fuel false rest
      else if atStart && c = '>' then '\\' :: '>' :: escapeMdAux fuel false rest
      else if atStart && c = '+' && rest.headD '\x00' = ' ' then
        '\\' :: '+' :: ' ' :: escapeMdAux fuel false (rest.drop 1)
      else if atStart && c = '=' then
        let run := (c :: rest).takeWhile (fun ch => ch = '=')
        '\\' :: run ++ escapeMdAux fuel false ((c :: rest).drop run.length)
      else if atStart && c = '#' then
        let run := (c :: rest).takeWhile (fun ch => ch = '#')
        if run.length ≤ 6 && (c :: rest).getD run.length '\x00' = ' ' then
          '\\' :: run ++ escapeMdAux fuel false ((c :: rest).drop run.length)
        else c :: escapeMdAux fuel false rest
      else if atStart && c = '~' && rest.take 2 = ['~', '~'] then
        '\\' :: '~' :: '~' :: '~' :: escapeMdAux fuel false (rest.drop 2)
      else if atStart && c.isDigit then
        let run := (c :: rest).takeWhile Char.isDigit
        let after := (c :: rest).drop run.length
        if after.take 2 = ['.', ' '] then
          run ++ '\\' :: '.' :: ' ' :: escapeMdAux fuel false (after.drop 2)
        else c :: escapeMdAux fuel false rest
      else c :: escapeMdAux fuel false rest

/-- turndown's text escaping. -/
def escapeMd (s : List Char) : List Char :=
  escapeMdAux (s.length + 1) true s

/-- turndown's `trimTrailingNewlines` / `trimLeadingNewlines`. -/
def trimTrailingNl (s : List Char) : List Char :=
  (s.reverse.dropWhile (fun c => c = '\n')).reverse

/-- Leading-newline trim. -/
def trimLeadingNl (s : List Char) : List Char :=
  s.dropWhile (fun c => c = '\n')

/-- turndown's `join`: concatenate with as many newlines as the larger of
the two sides' border runs, capped at two. -/
def joinTd (a b : List Char) : List Char :=
  let s1 := trimTrailingNl a
  let s2 := trimLeadingNl b
  let nls := max (a.length - s1.length) (b.length - s2.length)
  s1 ++ List.replicate (min nls 2) '\n' ++ s2

/-- turndown's `process` walk: fold the siblings through `join`; text is
escaped; a blank element takes the custom `blankReplacement`; any other
element goes to the first matching rule (the engine's `br`/`u`/`del`/`s`
rules, the commonmark paragraph rule) or the default block/inline
replacement. -/
def tdList (acc : List Char) : DForest → List Char
  | DForest.nil => acc
  | DForest.cons (DNode.txt s) rest => tdList (joinTd acc (escapeMd s.data)) rest
  | DForest.cons (DNode.el tag attrs children) rest =>
    let content := tdList [] children
    let repl :=
      if isBlankDom tag children then blankReplacement (DNode.el tag attrs children)
      else if tag = "br" then "<br>".data
      else if tag = "u" then "<u>".data ++ content ++ "</u>".data
      else if tag = "del" || tag = "s" then "~~".data ++ content ++ "~~".data
      else if tag = "p" then "\n\n".data ++ content ++ "\n\n".data
      else if blockElems.contains tag then "\n\n".data ++ content ++ "\n\n".data
      else content
    tdList (joinTd acc repl) rest

/-- turndown's `postProcess` trimming. -/
def tdPostProcess (s : List Char) : List Char :=
  ((s.dropWhile (fun c => c = '\t' || c = '\r' || c = '\n')).reverse.dropWhile
    isJsWs).reverse

/-- `turndownService.turndown`. -/
def turndown (s : String) : String :=
  ⟨tdPostProcess (tdList [] (parseHtmlDom s.data))⟩

/-! ## Table cell serialization (`cleanCellContent` / `cellWithLatex`,
source lines 411–479) -/

/-- JavaScript `parseInt(s, 10)`: leading whitespace, optional sign, then a
maximal run of decimal digits; no digits means `NaN` (`none`). -/
def parseJsInt (s : String) : Option Int :=
  let l := s.data.dropWhile isJsWs
  let signed : Int × List Char :=
    match l with
    | '-' :: rest => (-1, rest)
    | '+' :: rest => (1, rest)
    | _ => (1, l)
  let ds := signed.2.takeWhile Char.isDigit
  if ds.isEmpty then none
  else some (signed.1 * (ds.foldl (fun a c => a * 10 + (c.toNat - 48)) 0 : Nat))

/-- Loop of `collapseWsRuns` (fuel-driven). -/
def collapseWsRunsAux : Nat → List Char → List Char
  | 0, s => s
  | fuel + 1, s =>
    match s with
    | [] => []
    | c :: rest =>
      if isJsWs c then ' ' :: collapseWsRunsAux fuel (rest.dropWhile isJsWs)
      else c :: collapseWsRunsAux fuel rest

/-- Replace runs of whitespace by one space (`replace(/\s+/g, ' ')`). -/
def collapseWsRuns (s : List Char) : List Char :=
  collapseWsRunsAux (s.length + 1) s

/-- Loop of `replaceRunsBySpace` (fuel-driven). -/
def replaceRunsBySpaceAux (c : Char) : Nat → List Char → List Char
  | 0, s => s
  | fuel + 1, s =>
    match s with
    | [] => []
    | d :: rest =>
      if d = c then ' ' :: replaceRunsBySpaceAux c fuel (rest.dropWhile (fun e => e = c))
      else d :: replaceRunsBySpaceAux c fuel rest

/-- Replace runs of `c` by one space (for `/\n+/g` and `/\r+/g`). -/
def replaceRunsBySpace (c : Char) (s : List Char) : List Char :=
  replaceRunsBySpaceAux c (s.length + 1) s

/-- Escape pipes (`replace(/\|/g, '\\|')`). -/
def escapePipes (s : List Char) : List Char :=
  (s.map (fun c => if c = '|' then ['\\', '|'] else [c])).flatten

/-- The cell content normalizer (`cleanCellContent`, source lines 411–450):
math containers in the cell bypass the generic path; otherwise trim,
collapse whitespace, escape pipes, flatten newlines, and pad to a 3-column
minimum, with `"   "` for empty cells. -/
def cleanCellContent (content : String) (cellElement : Option DNode) : String :=
  let generic : String :=
    if content = "" then "   "
    else
      let cleaned := replaceRunsBySpace '\r' (replaceRunsBySpace '\n'
        (escapePipes (collapseWsRuns (jsTrimL content.data))))
      if cleaned.isEmpty || cleaned.all isJsWs then "   "
      else if cleaned.length < 3 then ⟨cleaned ++ List.replicate (3 - cleaned.length) ' '⟩
      else ⟨cleaned⟩
  match cellElement with
  | some (DNode.el _ _ children) =>
    match firstDescType "block-math" children with
    | some (DNode.el _ a _) =>
      "$$" ++ heDecode ((getAttrD a "data-latex").getD "") ++ "$$"
    | _ =>
      match firstDescType "inline-math" children with
      | some (DNode.el _ a _) =>
        "$" ++ heDecode ((getAttrD a "data-latex").getD "") ++ "$"
      | _ => generic
  | _ => generic

/-- The colspan padding loop of `cellWithLatex`
(`for (let i = 1; i < colspan; i++) result += '   |'`). -/
def extraCells : Nat → String
  | 0 => ""
  | n + 1 => "   |" ++ extraCells n

/-- The table-cell replacement (`cellWithLatex`, source lines 453–479).  The
`index === null` branch of the source resolves the node's index among its
parent's child nodes; the embedding takes that resolved index as `index`. -/
def cellWithLatex (content : String) (node : DNode) (index : Int) : String :=
  let pref : String := if index = 0 then "| " else " "
  let cellContent := cleanCellContent content (some node)
  let colspan : Int :=
    match node with
    | DNode.el _ attrs _ =>
      let raw := match getAttrD attrs "colspan" with
        | none => "1"
        | some s => if s = "" then "1" else s
      match parseJsInt raw with
      | none => 1
      | some k => if k < 1 then 1 else k
    | _ => 1
  pref ++ cellContent ++ " |" ++ extraCells (colspan - 1).toNat

/-- The HTML → markdown facade (`htmlToMarkdown`, source lines 598–612):
guard empty/absent input, guard pass, serialize, trim, entity-decode.  The
source's try/catch is modelled by totality. -/
def htmlToMarkdown (input : Option String) : String :=
  match input with
  | none => ""
  | some html =>
    if html = "" then ""
    else
      let encodedHtml := escapeCustomTags html
      let turndownResult := jsTrim (turndown encodedHtml)
      heDecode turndownResult

/-! ## Theorems for the claims -/

set_option maxRecDepth 40000

/-- Claim C1, counterexample.  The claim asserts that
`<script>alert(1)</script>` fed through the Custom-Tag Guard and the
HTML-to-Markdown serialization appears as visible escaped text.  In fact
`script` is in the standard vocabulary, so the guard leaves the markup
unchanged and the serializer emits only the element's text content: the
output is exactly `alert(1)`, which does not contain the tag at all —
neither live nor escaped. -/
theorem c1_counterexample :
    htmlToMarkdown (some "<script>alert(1)</script>") = "alert(1)" ∧
    htmlTagsList.contains "script" = true ∧
    findSubFrom "alert(1)".data "script".data 0 = none := by
  decide

/-- Claim C1, amended.  For `<script>alert(1)</script>` the guard is the
identity (`script` is standard) and serialization drops the tag, keeping
only the inner text `alert(1)`, so no live markup survives.  For a tag whose
name is outside the vocabulary, such as `<foo>bar</foo>`, the guard rewrites
the tag's own markup to entity form, and serialization then renders it as
the literal text `<foo>bar</foo>`. -/
theorem c1_amended :
    escapeCustomTags "<script>alert(1)</script>" = "<script>alert(1)</script>" ∧
    htmlToMarkdown (some "<script>alert(1)</script>") = "alert(1)" ∧
    escapeCustomTags "<foo>bar</foo>" = "&lt;foo&gt;bar&lt;/foo&gt;" ∧
    htmlTagsList.contains "foo" = false ∧
    htmlToMarkdown (some "<foo>bar</foo>") = "<foo>bar</foo>" := by
  decide

/-- Claim C2, evaluation at the failing input.  The spec's task-item pattern
admits `{x, X, space}`, but both regexes of the task-list pass
(`/^\s*\[[ x]\]\s/` and `/^(\s*)\[([x ])\]\s+(.*)/`) admit only lowercase
`x` and space, so `- [X] task` is not recognized: the list is rendered as a
plain bullet list with no task annotations.  (The pass's subsequent
`check.toLowerCase() === 'x'` shows the uppercase marker was intended to be
handled, making the narrowed character class a slip in the code.) -/
theorem c2_code_evaluation :
    taskTestL "[X] task".data = false ∧
    taskMatchL "[X] task".data = none ∧
    taskTestL "[x] task".data = true ∧
    markdownToHtml (some "- [X] task") = "<ul>\n<li>[X] task</li>\n</ul>\n" := by
  decide

/-- Claim C3, counterexample.  The claim asserts that inside a marked task
list an item whose inline content does not match the task pattern carries no
task-item annotation.  In fact the pass annotates every `list_item_open`
inside the marked list: for `- [x] a\n- b` the non-matching item `b` is
rendered with `data-type="taskItem"` and `class="task-list-item"` (though
without `data-checked` and with its content unchanged). -/
theorem c3_counterexample :
    markdownToHtml (some "- [x] a\n- b") =
      "<ul data-type=\"taskList\" class=\"task-list\">\n<li data-type=\"taskItem\" class=\"task-list-item\" data-checked=\"true\"><label><input type=\"checkbox\" checked disabled> a</label></li>\n<li data-type=\"taskItem\" class=\"task-list-item\">b</li>\n</ul>\n" ∧
    (findSubFrom (markdownToHtml (some "- [x] a\n- b")).data
      "<li data-type=\"taskItem\" class=\"task-list-item\">b</li>".data 0).isSome = true := by
  decide

/-- Claim C3, amended.  In a marked task list the item-open marker
attributes are set on every contained `list_item_open`, matching or not;
only matching items additionally receive the `data-checked` attribute and
the checkbox content rewrite, and a non-matching item keeps its inline
content unchanged.  One step of the pass on a `list_item_open` inside the
marked region annotates it unconditionally, and a step on a non-matching
inline token leaves the token untouched; the run on `- [x] a\n- b` shows
both (exactly one `data-checked` is emitted, on the matching item). -/
theorem c3_amended :
    (∀ (t : Tok) (label : Bool) (done rest : List Tok),
      t.ttype = "list_item_open" →
      taskPassAux label done true (t :: rest) =
        taskPassAux label
          (((t.attrSet "data-type" "taskItem").attrSet "class" "task-list-item") :: done)
          true rest) ∧
    (∀ (t : Tok) (label : Bool) (done rest : List Tok),
      t.ttype = "inline" → taskMatchL t.content.data = none →
      taskPassAux label done true (t :: rest) = taskPassAux label (t :: done) true rest) ∧
    markdownToHtml (some "- [x] a\n- b") =
      "<ul data-type=\"taskList\" class=\"task-list\">\n<li data-type=\"taskItem\" class=\"task-list-item\" data-checked=\"true\"><label><input type=\"checkbox\" checked disabled> a</label></li>\n<li data-type=\"taskItem\" class=\"task-list-item\">b</li>\n</ul>\n" := by
  refine ⟨?_, ?_, by decide⟩
  · intro t label done rest ht
    simp [taskPassAux, ht]
  · intro t label done rest ht hm
    simp [taskPassAux, ht, hm]

/-- Claim C4.  `markdownToHtml "$$a+b+c$$"` is exactly the block-math
container with latex attribute `a+b+c` (whose entity decoding is `a+b+c`),
and `htmlToMarkdown` of that exact container string returns `$$a+b+c$$`:
the round trip recovers the original math source. -/
theorem c4_math_roundtrip :
    markdownToHtml (some "$$a+b+c$$") =
      "<div data-latex=\"a+b+c\" data-type=\"block-math\"></div>" ∧
    heDecode "a+b+c" = "a+b+c" ∧
    htmlToMarkdown (some "<div data-latex=\"a+b+c\" data-type=\"block-math\"></div>") =
      "$$a+b+c$$" := by
  decide

/-- Claim C10, counterexample.  The claim asserts the rendered output is
wrapped only when the lone tag's lowercased name is outside the standard
vocabulary, and returned unwrapped otherwise.  For the input `<p/>` the
rendered HTML equals the input (plus newline), the name `p` is standard —
yet the output is wrapped, because the capture group of
`/^<([a-zA-Z][^>\s]*)\/?>$/` greedily includes the trailing slash, so the
vocabulary lookup tests `p/`, which is not in the list. -/
theorem c10_counterexample :
    markdownToHtml (some "<p/>") = "<p><p/>\n</p>" ∧
    htmlTagsList.contains "p" = true ∧
    singleTagCapture "<p/>".data = some "p/".data := by
  decide

/-- Claim C10, amended.  The captured name retains the trailing `/` of a
self-closing tag, so every lone self-closing tag is wrapped (a vocabulary
name followed by `/` is never in the vocabulary); a lone non-self-closing
tag is wrapped exactly when its lowercased name is outside the vocabulary
(`<foo>` wrapped, `<div>` unwrapped); other inputs are returned unwrapped. -/
theorem c10_amended :
    markdownToHtml (some "<p/>") = "<p><p/>\n</p>" ∧
    markdownToHtml (some "<foo>") = "<p><foo>\n</p>" ∧
    markdownToHtml (some "<div>") = "<div>\n" ∧
    htmlTagsList.all (fun nm => !htmlTagsList.contains (nm ++ "/")) = true := by
  decide

/-! ### Helper lemmas about the search loop -/

/-- A successful `indexOf` scan yields a position at or after the start, in
bounds, and actually matching. -/
theorem findSubFromAux_some (s pat : List Char) :
    ∀ (fuel i j : Nat), findSubFromAux s pat fuel i = some j →
      i ≤ j ∧ j ≤ s.length ∧ matchAtB s pat j = true := by
  intro fuel
  induction fuel with
  | zero => intro i j h; simp [findSubFromAux] at h
  | succ fuel ih =>
    intro i j h
    simp only [findSubFromAux] at h
    by_cases h1 : i ≤ s.length
    · rw [if_pos h1] at h
      by_cases h2 : matchAtB s pat i = true
      · rw [if_pos h2] at h
        cases h
        exact ⟨Nat.le_refl _, h1, h2⟩
      · rw [if_neg h2] at h
        by_cases h3 : i = s.length
        · rw [if_pos h3] at h; cases h
        · rw [if_neg h3] at h
          obtain ⟨ha, hb, hc⟩ := ih (i + 1) j h
          exact ⟨by omega, hb, hc⟩
    · rw [if_neg h1] at h; cases h

/-- A pattern cannot match beyond the end of the string. -/
theorem matchAtB_false_of_gt (s pat : List Char) (hpat : pat ≠ []) (j : Nat)
    (hj : s.length < j) : matchAtB s pat j = false := by
  have hd : s.drop j = [] := List.drop_eq_nil_of_le (by omega)
  cases pat with
  | nil => exact absurd rfl hpat
  | cons p ps => simp [matchAtB, hd, List.isPrefixOf]

/-- A failed `indexOf` scan means no match at any position from the start
onward. -/
theorem findSubFromAux_none (s pat : List Char) (hpat : pat ≠ []) :
    ∀ (fuel i : Nat), s.length + 1 - i ≤ fuel → findSubFromAux s pat fuel i = none →
      ∀ j, i ≤ j → matchAtB s pat j = false := by
  intro fuel
  induction fuel with
  | zero =>
    intro i hle _ j hij
    exact matchAtB_false_of_gt s pat hpat j (by omega)
  | succ fuel ih =>
    intro i hle h j hij
    simp only [findSubFromAux] at h
    by_cases h1 : i ≤ s.length
    · rw [if_pos h1] at h
      by_cases h2 : matchAtB s pat i = true
      · rw [if_pos h2] at h; cases h
      · rw [if_neg h2] at h
        rcases Nat.eq_or_lt_of_le hij with rfl | hlt
        · exact Bool.eq_false_iff.mpr h2
        · by_cases h3 : i = s.length
          · rw [if_pos h3] at h
            exact matchAtB_false_of_gt s pat hpat j (by omega)
          · rw [if_neg h3] at h
            exact ih (i + 1) (by omega) h j hlt
    · exact matchAtB_false_of_gt s pat hpat j (by omega)

/-- `findSubFrom` success characterization. -/
theorem findSubFrom_some (s pat : List Char) (i j : Nat)
    (h : findSubFrom s pat i = some j) :
    i ≤ j ∧ j ≤ s.length ∧ matchAtB s pat j = true :=
  findSubFromAux_some s pat (s.length + 1) i j h

/-- `findSubFrom` failure characterization. -/
theorem findSubFrom_none (s pat : List Char) (hpat : pat ≠ []) (i : Nat)
    (h : findSubFrom s pat i = none) :
    ∀ j, i ≤ j → matchAtB s pat j = false :=
  findSubFromAux_none s pat hpat (s.length + 1) i (by omega) h

/-- The colspan padding loop emits exactly its argument many empty padded
cells. -/
theorem extraCells_eq (m : Nat) : extraCells m = ⟨repeatL "   |".data m⟩ := by
  induction m with
  | zero => rfl
  | succ m ih =>
    show "   |" ++ extraCells m = _
    rw [ih]
    rfl

/-- Claim C5.  For every table cell whose `colspan` attribute parses to an
integer `n > 1`, `cellWithLatex` emits the cell's own content cell followed
by exactly `n − 1` extra empty padded pipe cells (`"   |"` each); in
particular `colspan="3"` yields exactly two. -/
theorem c5_colspan (content : String) (tag : String) (attrs : List (String × String))
    (children : DForest) (index : Int) (s : String) (n : Int)
    (hattr : getAttrD attrs "colspan" = some s)
    (hparse : parseJsInt s = some n) (hn : 1 < n) :
    cellWithLatex content (DNode.el tag attrs children) index =
      (if index = 0 then "| " else " ") ++
        cleanCellContent content (some (DNode.el tag attrs children)) ++ " |" ++
        ⟨repeatL "   |".data (n - 1).toNat⟩ := by
  have hs : s ≠ "" := by
    intro he
    rw [he] at hparse
    simp [parseJsInt] at hparse
  have hnot : ¬ n < 1 := by omega
  simp only [cellWithLatex, hattr, hs, if_false, hparse, hnot, if_neg]
  rw [extraCells_eq]

/-- Claim C5, witness: a cell with `colspan="3"` gets exactly two extra
empty padded cells after its content cell. -/
theorem c5_colspan_witness :
    cellWithLatex "x" (DNode.el "td" [("colspan", "3")] DForest.nil) 0 =
      (if (0 : Int) = 0 then "| " else " ") ++
        cleanCellContent "x" (some (DNode.el "td" [("colspan", "3")] DForest.nil)) ++ " |" ++
        ⟨repeatL "   |".data 2⟩ :=
  c5_colspan "x" "td" [("colspan", "3")] DForest.nil 0 "3" 3 (by decide) (by decide)
    (by decide)

/-- Claim C8.  The inline-math rule opens a span at `pos` exactly when the
character there is `$` and the next `$` exists with no literal newline
between the two delimiters; `markdownToHtml "$a\nb$"` shows the aborted
match leaving the `$` as ordinary paragraph text. -/
theorem c8_inline_math_newline :
    (∀ (src : List Char) (pos : Nat),
      (mathInlineRule src pos src.length).isSome = true ↔
        (pos < src.length ∧ src.getD pos '\x00' = '$' ∧
          ∃ j, findCharFrom src '$' (pos + 1) = some j ∧
            (subL src (pos + 1) j).contains '\n' = false)) ∧
    markdownToHtml (some "$a\nb$") = "<p>$a\nb$</p>\n" := by
  constructor
  · intro src pos
    simp only [mathInlineRule]
    by_cases h1 : pos ≥ src.length
    · rw [if_pos h1]
      simp only [Option.isSome_none, Bool.false_eq_true, false_iff]
      rintro ⟨hlt, -, -⟩
      omega
    · rw [if_neg h1]
      by_cases h2 : src.getD pos '\x00' = '$'
      · rw [if_neg (show ¬ src.getD pos '\x00' ≠ '$' from fun hne => hne h2)]
        cases hf : findCharFrom src '$' (pos + 1) with
        | none =>
          simp only [Option.isSome_none, Bool.false_eq_true, false_iff]
          rintro ⟨-, -, j, hj, -⟩
          cases hj
        | some close =>
          obtain ⟨hc1, hc2, hc3⟩ := findSubFrom_some src ['$'] (pos + 1) close hf
          dsimp only
          rw [if_neg (show ¬ close > src.length by omega)]
          by_cases hnl : (subL src (pos + 1) close).contains '\n' = true
          · rw [if_pos hnl]
            simp only [Option.isSome_none, Bool.false_eq_true, false_iff]
            rintro ⟨-, -, j, hj, hjc⟩
            injection hj with hj
            subst hj
            rw [hnl] at hjc
            cases hjc
          · rw [if_neg hnl]
            simp only [Option.isSome_some, true_iff]
            exact ⟨by omega, h2, close, rfl, Bool.eq_false_iff.mpr hnl⟩
      · rw [if_pos (show src.getD pos '\x00' ≠ '$' from h2)]
        simp only [Option.isSome_none, Bool.false_eq_true, false_iff]
        rintro ⟨-, hd, -⟩
        exact h2 hd
  · decide

/-! ### Helper lemmas about the task-list pass -/

/-- The backward patch to the parent item only touches the first
`list_item_open`; any other member survives. -/
theorem patchParent_mem (v : String) (t : Tok) :
    ∀ (done : List Tok), t ∈ done → t.ttype ≠ "list_item_open" →
      t ∈ patchParent done v := by
  intro done
  induction done with
  | nil => intro h _; cases h
  | cons u rest ih =>
    intro hmem hty
    simp only [patchParent]
    by_cases hu : u.ttype = "list_item_open"
    · rw [if_pos hu]
      rcases List.mem_cons.mp hmem with rfl | hm
      · exact absurd hu hty
      · exact List.mem_cons_of_mem _ hm
    · rw [if_neg hu]
      rcases List.mem_cons.mp hmem with rfl | hm
      · exact List.mem_cons_self _ _
      · exact List.mem_cons_of_mem _ (ih hm hty)

/-- A token that is not a `list_item_open` and is already in the processed
prefix survives the rest of the task-list pass unchanged. -/
theorem taskPassAux_mem (label : Bool) (t : Tok) (hty : t.ttype ≠ "list_item_open") :
    ∀ (remaining done : List Tok) (inside : Bool),
      t ∈ done → t ∈ taskPassAux label done inside remaining := by
  intro remaining
  induction remaining with
  | nil =>
    intro done inside h
    simp only [taskPassAux]
    exact List.mem_reverse.mpr h
  | cons u rest ih =>
    intro done inside hmem
    simp only [taskPassAux]
    repeat' split
    all_goals first
      | exact ih _ _ (List.mem_cons_of_mem _ hmem)
      | exact ih _ _ (List.mem_cons_of_mem _ (patchParent_mem _ t done hmem hty))

/-- Claim C9.  The task-list plugin's own default for the `label` option is
`false`, but the conversion facade constructs its engine with `label: true`;
under that flag, every inline token matching the task pattern is rewritten
so that the checkbox marker and the remaining text are wrapped together in a
single `<label>` element (one `html_inline` child), and the full pipeline on
`- [x] abcd` renders the label-wrapped form. -/
theorem c9_label_mode :
    taskListDefaultLabel = false ∧ facadeTaskListLabel = true ∧
    (∀ (t : Tok) (done rest : List Tok) (ind : List Char) (check : Char)
        (text : List Char),
      t.ttype = "inline" → taskMatchL t.content.data = some (ind, check, text) →
      ({ t with
          content := ⟨text⟩,
          children := [ITok.mk "html_inline"
            (labelHtml (check.toLower = 'x') ⟨text⟩)] } : Tok) ∈
        taskPassAux true done true (t :: rest)) ∧
    markdownToHtml (some "- [x] abcd") =
      "<ul data-type=\"taskList\" class=\"task-list\">\n<li data-type=\"taskItem\" class=\"task-list-item\" data-checked=\"true\"><label><input type=\"checkbox\" checked disabled> abcd</label></li>\n</ul>\n" := by
  refine ⟨rfl, rfl, ?_, by decide⟩
  intro t done rest ind check text hty hm
  simp only [taskPassAux, hty, hm]
  simp only [String.reduceEq, Bool.false_and, Bool.and_self, if_false,
    Bool.true_and, if_true]
  refine taskPassAux_mem true _ ?_ rest _ true (List.mem_cons_self _ _)
  show ("inline" : String) ≠ "list_item_open"
  decide

/-! ### Helper lemmas for the block-math rejection -/

/-- Two adjacent `$` characters form a `$$` match. -/
theorem matchAtB_dollars (s : List Char) (j : Nat) (hj : j + 2 ≤ s.length)
    (h1 : s.getD j ' ' = '$') (h2 : s.getD (j + 1) ' ' = '$') :
    matchAtB s "$$".data j = true := by
  have hj1 : j < s.length := by omega
  have hj2 : j + 1 < s.length := by omega
  have e1 : s.drop j = s[j] :: s.drop (j + 1) := List.drop_eq_getElem_cons hj1
  have e2 : s.drop (j + 1) = s[j + 1] :: s.drop (j + 2) := List.drop_eq_getElem_cons hj2
  have g1 : s.getD j ' ' = s[j] := List.getD_eq_getElem s ' ' hj1
  have g2 : s.getD (j + 1) ' ' = s[j + 1] := List.getD_eq_getElem s ' ' hj2
  rw [g1] at h1
  rw [g2] at h2
  simp [matchAtB, e1, e2, h1, h2, List.isPrefixOf]

/-- A match inside a slice is a match in the source, shifted. -/
theorem matchAtB_subL (s pat : List Char) (a b cp : Nat)
    (h : matchAtB (subL s a b) pat cp = true) : matchAtB s pat (a + cp) = true := by
  unfold matchAtB at h ⊢
  unfold subL at h
  rw [List.isPrefixOf_iff_prefix] at h ⊢
  rw [List.drop_drop, List.drop_take] at h
  exact h.trans (List.take_prefix _ _)

/-- If the source has no `$$` at or after `k`, the multiline scan of the
block-math rule fails on any run of lines lying beyond `k`. -/
theorem mathBlockScan_none (src : List Char) (startL : Line) (k : Nat)
    (hfind : findSubFrom src "$$".data k = none) :
    ∀ (rest mids : List Line),
      (∀ M ∈ rest, k ≤ M.bMark + M.tShift ∧ M.eMark ≤ src.length) →
      mathBlockScan src startL mids rest = none := by
  have hnomatch := findSubFrom_none src "$$".data (by decide) k hfind
  intro rest
  induction rest with
  | nil => intro mids _; rfl
  | cons L rest ih =>
    intro mids hM
    obtain ⟨hk, hle⟩ := hM L (List.mem_cons_self _ _)
    have hline : findSubFrom (subL src (L.bMark + L.tShift) L.eMark) "$$".data 0 = none := by
      cases hcp : findSubFrom (subL src (L.bMark + L.tShift) L.eMark) "$$".data 0 with
      | none => rfl
      | some cp =>
        obtain ⟨-, -, hmatch⟩ := findSubFrom_some _ _ _ _ hcp
        have hsrc := matchAtB_subL src "$$".data (L.bMark + L.tShift) L.eMark cp hmatch
        have hcontra := hnomatch (L.bMark + L.tShift + cp) (by omega)
        rw [hsrc] at hcontra
        cases hcontra
    unfold mathBlockScan
    dsimp only
    rw [hline]
    dsimp only
    split
    next hcc =>
      exfalso
      simp only [Bool.and_eq_true, decide_eq_true_eq] at hcc
      obtain ⟨⟨hc1, hc2⟩, hc3⟩ := hcc
      have hm := matchAtB_dollars src (L.bMark + L.tShift) (by omega) hc2 hc3
      have hcontra := hnomatch (L.bMark + L.tShift) (by omega)
      rw [hm] at hcontra
      cases hcontra
    next =>
      exact ih (mids ++ [L]) (fun M hMm => hM M (List.mem_cons_of_mem _ hMm))

/-- Claim C7.  Whenever a line begins (after indentation) with `$$` and no
closing `$$` occurs anywhere later in the document, the block-math rule
rejects the construct (returns no token), and the text is instead parsed as
an ordinary paragraph: `markdownToHtml "$$a+b"` yields a `<p>`-wrapped
paragraph (whose content is then subject to the ordinary inline rules), with
no error. -/
theorem c7_unterminated_math :
    (∀ (src : List Char) (L : Line) (rest : List Line),
      src.getD (L.bMark + L.tShift) ' ' = '$' →
      src.getD (L.bMark + L.tShift + 1) ' ' = '$' →
      L.bMark + L.tShift + 2 ≤ L.eMark →
      findSubFrom src "$$".data (L.bMark + L.tShift + 2) = none →
      (∀ M ∈ rest,
        L.bMark + L.tShift + 2 ≤ M.bMark + M.tShift ∧ M.eMark ≤ src.length) →
      mathBlockRule src (L :: rest) = none) ∧
    markdownToHtml (some "$$a+b") =
      "<p><span data-latex=\"\" data-type=\"inline-math\"></span>a+b</p>\n" := by
  refine ⟨?_, by decide⟩
  intro src L rest h1 h2 h3 h4 h5
  simp only [mathBlockRule]
  rw [if_neg (show ¬ L.bMark + L.tShift + 2 > L.eMark by omega)]
  rw [if_neg (show ¬ (!(decide (src.getD (L.bMark + L.tShift) ' ' = '$') &&
      decide (src.getD (L.bMark + L.tShift + 1) ' ' = '$'))) = true from by
    rw [decide_eq_true h1, decide_eq_true h2]
    decide)]
  rw [h4]
  exact mathBlockScan_none src L (L.bMark + L.tShift + 2) h4 rest [] h5

/-- Claim C7, witness: the rejection fact applied to the one-line document
`$$a+b`. -/
theorem c7_unterminated_math_witness :
    mathBlockRule "$$a+b".data [⟨0, 5, 0⟩] = none :=
  c7_unterminated_math.1 "$$a+b".data ⟨0, 5, 0⟩ [] (by decide) (by decide)
    (by decide) (by decide) (by simp)

/-! ### Helper lemmas for the empty/whitespace contract -/

/-- A whitespace character differs from any non-whitespace one. -/
theorem isJsWs_ne {c d : Char} (hc : isJsWs c = true) (hd : isJsWs d = false) :
    c ≠ d := by
  intro h
  rw [h, hd] at hc
  cases hc

/-- The tokenizer produces no events on a `<`-free input. -/
theorem tokenizeHtmlAux_no_lt (s : List Char) (hs : ∀ c ∈ s, c ≠ '<') :
    ∀ (fuel i : Nat), tokenizeHtmlAux s fuel i = [] := by
  intro fuel
  induction fuel with
  | zero => intro i; rfl
  | succ fuel ih =>
    intro i
    unfold tokenizeHtmlAux
    by_cases h1 : i < s.length
    · rw [if_pos h1]
      have hne : s.getD i ' ' ≠ '<' := by
        rw [List.getD_eq_getElem s ' ' h1]
        exact hs _ (List.getElem_mem h1)
      rw [if_neg hne]
      exact ih (i + 1)
    · rw [if_neg h1]

/-- The Custom-Tag Guard is the identity on `<`-free input. -/
theorem escapeCustomTags_no_lt (h : String) (hs : ∀ c ∈ h.data, c ≠ '<') :
    escapeCustomTags h = h := by
  unfold escapeCustomTags tokenizeHtml
  rw [tokenizeHtmlAux_no_lt h.data hs]
  rfl

/-- Entity decoding is the identity on `&`-free input. -/
theorem heDecodeAux_no_amp : ∀ (fuel : Nat) (s : List Char),
    (∀ c ∈ s, c ≠ '&') → heDecodeAux fuel s = s := by
  intro fuel
  induction fuel with
  | zero => intro s _; rfl
  | succ fuel ih =>
    intro s hs
    cases s with
    | nil => rfl
    | cons c rest =>
      unfold heDecodeAux
      dsimp only
      rw [if_neg (hs c (List.mem_cons_self _ _))]
      rw [ih rest (fun x hx => hs x (List.mem_cons_of_mem _ hx))]

/-- Entity decoding is the identity on `&`-free input. -/
theorem heDecodeL_no_amp (s : List Char) (hs : ∀ c ∈ s, c ≠ '&') :
    heDecodeL s = s :=
  heDecodeAux_no_amp (s.length + 1) s hs

/-- Membership survives `dropWhile` backwards. -/
theorem mem_of_dropWhile {p : Char → Bool} {l : List Char} {c : Char}
    (h : c ∈ l.dropWhile p) : c ∈ l :=
  (List.dropWhile_suffix p).sublist.subset h

/-- Membership survives `takeWhile` backwards. -/
theorem mem_of_takeWhile {p : Char → Bool} {l : List Char} {c : Char}
    (h : c ∈ l.takeWhile p) : c ∈ l :=
  (List.takeWhile_prefix p).sublist.subset h

/-- turndown's text escaping keeps whitespace-only text whitespace-only. -/
theorem escapeMdAux_ws : ∀ (fuel : Nat) (st : Bool) (s : List Char),
    (∀ c ∈ s, isJsWs c = true) → ∀ c ∈ escapeMdAux fuel st s, isJsWs c = true := by
  intro fuel
  induction fuel with
  | zero => intro st s hall c hc; exact hall c hc
  | succ fuel ih =>
    intro st s hall c hc
    cases s with
    | nil => simp [escapeMdAux] at hc
    | cons d rest =>
      have hd := hall d (List.mem_cons_self _ _)
      have hrest : ∀ x ∈ rest, isJsWs x = true := fun x hx =>
        hall x (List.mem_cons_of_mem _ hx)
      have hd6 : d = ' ' ∨ d = '\t' ∨ d = '\n' ∨ d = '\r' ∨ d = '\x0b' ∨ d = '\x0c' := by
        have hx := hd
        simp only [isJsWs, Bool.or_eq_true, decide_eq_true_eq] at hx
        tauto
      rcases hd6 with rfl | rfl | rfl | rfl | rfl | rfl <;>
        simp [escapeMdAux, Char.isDigit] at hc <;>
        rcases hc with rfl | hc <;>
        first
          | decide
          | exact ih _ rest hrest c hc

/-- turndown's `join` of whitespace-only pieces is whitespace-only. -/
theorem joinTd_ws {a b : List Char} (ha : ∀ c ∈ a, isJsWs c = true)
    (hb : ∀ c ∈ b, isJsWs c = true) : ∀ c ∈ joinTd a b, isJsWs c = true := by
  intro c hc
  unfold joinTd trimTrailingNl trimLeadingNl at hc
  rcases List.mem_append.mp hc with hc | hc
  · rcases List.mem_append.mp hc with hc | hc
    · exact ha c (List.mem_reverse.mp (mem_of_dropWhile (List.mem_reverse.mp hc)))
    · rw [List.eq_of_mem_replicate hc]
      decide
  · exact hb c (mem_of_dropWhile hc)

/-- turndown's `postProcess` never introduces characters. -/
theorem mem_of_tdPostProcess {s : List Char} {c : Char}
    (h : c ∈ tdPostProcess s) : c ∈ s := by
  unfold tdPostProcess at h
  exact mem_of_dropWhile (List.mem_reverse.mp (mem_of_dropWhile
    (List.mem_reverse.mp h)))

/-- Trimming a whitespace-only list yields the empty list. -/
theorem jsTrimL_ws {s : List Char} (hs : ∀ c ∈ s, isJsWs c = true) :
    jsTrimL s = [] := by
  unfold jsTrimL
  rw [List.dropWhile_eq_nil_iff.mpr hs]
  rfl

/-- The DOM parser on the empty input. -/
theorem parseNodesAux_nil (fuel : Nat) (h : 1 ≤ fuel) :
    parseNodesAux fuel [] = (DForest.nil, []) := by
  cases fuel with
  | zero => omega
  | succ fuel => rfl

/-- The DOM parser turns a nonempty `<`-free input into one text node. -/
theorem parseNodesAux_text (s : List Char) (hne : s ≠ [])
    (hs : ∀ c ∈ s, c ≠ '<') :
    ∀ fuel, 2 ≤ fuel →
      parseNodesAux fuel s = (DForest.cons (DNode.txt ⟨heDecodeL s⟩) DForest.nil, []) := by
  intro fuel hfuel
  obtain ⟨fuel, rfl⟩ : ∃ k, fuel = k + 2 := ⟨fuel - 2, by omega⟩
  cases s with
  | nil => exact absurd rfl hne
  | cons c rest =>
    unfold parseNodesAux
    dsimp only
    rw [if_neg (hs c (List.mem_cons_self _ _))]
    have htw : (c :: rest).takeWhile (fun ch => ch ≠ '<') = c :: rest := by
      rw [List.takeWhile_eq_self_iff]
      intro x hx
      simpa using hs x hx
    rw [htw, List.drop_length, parseNodesAux_nil (fuel + 1) (by omega)]

/-- The serializer's output on a whitespace-only input is whitespace-only. -/
theorem turndown_ws (s : String) (hne : s.data ≠ [])
    (hs : ∀ c ∈ s.data, isJsWs c = true) :
    ∀ c ∈ (turndown s).data, isJsWs c = true := by
  intro c hc
  unfold turndown parseHtmlDom at hc
  rw [parseNodesAux_text s.data hne
    (fun x hx => isJsWs_ne (hs x hx) (by decide)) (2 * s.data.length + 2)
    (by omega)] at hc
  rw [heDecodeL_no_amp s.data (fun x hx => isJsWs_ne (hs x hx) (by decide))] at hc
  have hdone : (tdList [] (DForest.cons (DNode.txt ⟨s.data⟩) DForest.nil)) =
      joinTd [] (escapeMd s.data) := by
    simp [tdList]
  rw [hdone] at hc
  exact joinTd_ws (fun x hx => absurd hx (List.not_mem_nil x))
    (escapeMdAux_ws (s.data.length + 1) true s.data hs)
    c (mem_of_tdPostProcess hc)

/-- The HTML → markdown facade returns the empty string on whitespace-only
input. -/
theorem htmlToMarkdown_ws (s : String) (hs : s.data.all isJsWs = true) :
    htmlToMarkdown (some s) = "" := by
  have hall : ∀ c ∈ s.data, isJsWs c = true := by
    intro c hc
    exact List.all_eq_true.mp hs c hc
  by_cases hse : s = ""
  · rw [hse]; rfl
  · have hne : s.data ≠ [] := by
      intro hx
      exact hse (by cases s; simp_all)
    show (if s = "" then "" else _) = ""
    rw [if_neg hse]
    rw [escapeCustomTags_no_lt s (fun x hx => isJsWs_ne (hall x hx) (by decide))]
    have htrim : jsTrim (turndown s) = "" := by
      unfold jsTrim
      rw [jsTrimL_ws (turndown_ws s hne hall)]
    rw [htrim]
    rfl

/-- Membership survives `drop` backwards. -/
theorem mem_of_drop {l : List Char} {n : Nat} {c : Char} (h : c ∈ l.drop n) :
    c ∈ l :=
  (List.drop_suffix n l).sublist.subset h

/-- The image regex cannot match at a position not starting with `!`. -/
theorem imageMatchAt_no_bang (c : Char) (rest : List Char) (hc : c ≠ '!') :
    imageMatchAt (c :: rest) = none := by
  unfold imageMatchAt
  rw [if_neg]
  intro h
  cases rest with
  | nil => simp at h
  | cons d r =>
    simp only [List.take_succ_cons, List.take_zero, List.cons.injEq] at h
    exact hc h.1

/-- The image pre-pass is the identity on `!`-free input. -/
theorem imagePreprocessAux_no_bang : ∀ (fuel : Nat) (s : List Char),
    (∀ c ∈ s, c ≠ '!') → imagePreprocessAux fuel s = s := by
  intro fuel
  induction fuel with
  | zero => intro s _; rfl
  | succ fuel ih =>
    intro s hs
    cases s with
    | nil => rfl
    | cons c rest =>
      unfold imagePreprocessAux
      dsimp only
      rw [imageMatchAt_no_bang c rest (hs c (List.mem_cons_self _ _))]
      dsimp only
      rw [ih rest (fun x hx => hs x (List.mem_cons_of_mem _ hx))]

/-- Newline normalization maps the JS whitespace subclass
`{space, tab, newline, CR}` into `{space, tab, newline}`. -/
theorem normalizeNlAux_class : ∀ (fuel : Nat) (s : List Char), s.length ≤ fuel →
    (∀ c ∈ s, c = ' ' ∨ c = '\t' ∨ c = '\n' ∨ c = '\r') →
    ∀ c ∈ normalizeNlAux fuel s, c = ' ' ∨ c = '\t' ∨ c = '\n' := by
  intro fuel
  induction fuel with
  | zero =>
    intro s hlen _ c hc
    have hnil : s = [] := List.eq_nil_of_length_eq_zero (by omega)
    subst hnil
    simp [normalizeNlAux] at hc
  | succ fuel ih =>
    intro s hlen hall c hc
    cases s with
    | nil => simp [normalizeNlAux] at hc
    | cons d rest =>
      unfold normalizeNlAux at hc
      dsimp only at hc
      have hd := hall d (List.mem_cons_self _ _)
      have hrest : ∀ x ∈ rest, x = ' ' ∨ x = '\t' ∨ x = '\n' ∨ x = '\r' :=
        fun x hx => hall x (List.mem_cons_of_mem _ hx)
      have hlen' : rest.length ≤ fuel := by
        simp only [List.length_cons] at hlen; omega
      by_cases hdr : d = '\r'
      · rw [if_pos hdr] at hc
        by_cases hh : rest.headD '\x00' = '\n'
        · rw [if_pos hh] at hc
          rcases List.mem_cons.mp hc with rfl | hc
          · right; right; rfl
          · exact ih (rest.drop 1)
              (by simp only [List.length_drop]; omega)
              (fun x hx => hrest x (mem_of_drop hx)) c hc
        · rw [if_neg hh] at hc
          rcases List.mem_cons.mp hc with rfl | hc
          · right; right; rfl
          · exact ih rest hlen' hrest c hc
      · rw [if_neg hdr] at hc
        rcases List.mem_cons.mp hc with rfl | hc
        · rcases hd with rfl | rfl | rfl | rfl
          · left; rfl
          · right; left; rfl
          · right; right; rfl
          · exact absurd rfl hdr
        · exact ih rest hlen' hrest c hc

/-- Newline normalization maps the JS whitespace subclass
`{space, tab, newline, CR}` into `{space, tab, newline}`. -/
theorem normalizeNl_class (s : List Char)
    (hall : ∀ c ∈ s, c = ' ' ∨ c = '\t' ∨ c = '\n' ∨ c = '\r') :
    ∀ c ∈ normalizeNl s, c = ' ' ∨ c = '\t' ∨ c = '\n' :=
  normalizeNlAux_class (s.length + 1) s (by omega) hall

/-- Every line of a whitespace-only source is blank. -/
theorem computeLinesAux_blank (src : List Char)
    (hsrc : ∀ c ∈ src, c = ' ' ∨ c = '\t' ∨ c = '\n') :
    ∀ (fuel pos : Nat), ∀ L ∈ computeLinesAux src fuel pos,
      isBlankLine L = true := by
  intro fuel
  induction fuel with
  | zero => intro pos L hL; simp [computeLinesAux] at hL
  | succ fuel ih =>
    intro pos L hL
    unfold computeLinesAux at hL
    by_cases hp : pos ≤ src.length
    · rw [if_pos hp] at hL
      dsimp only at hL
      rcases List.mem_cons.mp hL with rfl | hL
      · have htw : ((src.drop pos).takeWhile (fun c => c ≠ '\n')).takeWhile
            (fun c => c = ' ' || c = '\t') =
            (src.drop pos).takeWhile (fun c => c ≠ '\n') := by
          rw [List.takeWhile_eq_self_iff]
          intro x hx
          have h1 : x ∈ src := mem_of_drop (mem_of_takeWhile hx)
          have h2 := List.mem_takeWhile_imp hx
          rcases hsrc x h1 with rfl | rfl | rfl
          · decide
          · decide
          · simp at h2
        rw [htw]
        simp only [isBlankLine, decide_eq_true_eq]
        omega
      · by_cases he : pos + ((src.drop pos).takeWhile (fun c => c ≠ '\n')).length
            < src.length
        · rw [if_pos he] at hL
          exact ih _ L hL
        · rw [if_neg he] at hL
          simp at hL
    · rw [if_neg hp] at hL
      simp at hL

/-- The block tokenizer produces nothing from blank lines alone. -/
theorem parseBlocksAux_blank (src : List Char) :
    ∀ (fuel : Nat) (lines : List Line),
    (∀ L ∈ lines, isBlankLine L = true) → parseBlocksAux src fuel lines = [] := by
  intro fuel
  induction fuel with
  | zero => intro lines _; cases lines <;> rfl
  | succ fuel ih =>
    intro lines hall
    cases lines with
    | nil => rfl
    | cons L rest =>
      unfold parseBlocksAux
      rw [if_pos (hall L (List.mem_cons_self _ _))]
      exact ih rest (fun x hx => hall x (List.mem_cons_of_mem _ hx))

/-- The whole markdown renderer yields the empty string on input made only
of spaces, tabs, newlines and carriage returns. -/
theorem mdRender_ws (s : String)
    (hs : ∀ c ∈ s.data, c = ' ' ∨ c = '\t' ∨ c = '\n' ∨ c = '\r') :
    mdRender s = "" := by
  unfold mdRender
  dsimp only
  rw [parseBlocksAux_blank (normalizeNl s.data)
    ((computeLines (normalizeNl s.data)).length + 1)
    (computeLines (normalizeNl s.data))
    (computeLinesAux_blank (normalizeNl s.data) (normalizeNl_class s.data hs)
      ((normalizeNl s.data).length + 1) 0)]
  rfl

/-- The markdown → HTML facade returns the empty string on input made only
of spaces, tabs, newlines and carriage returns. -/
theorem markdownToHtml_ws (s : String)
    (hs : ∀ c ∈ s.data, c = ' ' ∨ c = '\t' ∨ c = '\n' ∨ c = '\r') :
    markdownToHtml (some s) = "" := by
  by_cases hse : s = ""
  · rw [hse]; rfl
  · have hws : ∀ c ∈ s.data, isJsWs c = true := fun c hc => by
      rcases hs c hc with rfl | rfl | rfl | rfl <;> decide
    have himg : imagePreprocess s.data = s.data :=
      imagePreprocessAux_no_bang (s.data.length + 1) s.data
        (fun c hc => isJsWs_ne (hws c hc) (by decide))
    have htr : jsTrim s = "" := by
      unfold jsTrim
      rw [jsTrimL_ws hws]
    unfold markdownToHtml
    dsimp only
    rw [if_neg hse, himg]
    rw [show (⟨s.data⟩ : String) = s from rfl]
    rw [mdRender_ws s hs, htr]
    rfl

/-- Claim C6, counterexample: the vertical tab `\x0b` is JavaScript
whitespace (so `"\x0b"` is a whitespace-only input, and indeed
`htmlToMarkdown` returns `""` on it), yet `markdownToHtml` returns
`"<p></p>\n"` on it, not the empty string: markdown-it's own notion of a
blank line covers only spaces and tabs, so a vertical-tab line is parsed as
a (visually empty) paragraph. -/
theorem c6_counterexample :
    isJsWs '\x0b' = true ∧
    markdownToHtml (some "\x0b") = "<p></p>\n" ∧
    ("<p></p>\n" : String) ≠ "" ∧
    htmlToMarkdown (some "\x0b") = "" := by
  refine ⟨by decide, by decide, by decide, by decide⟩

/-- Claim C6 (amended): absent and empty input yield the empty string from
both directions; `htmlToMarkdown` yields the empty string on every input
made only of JavaScript whitespace; and `markdownToHtml` yields the empty
string on every input made only of spaces, tabs, newlines and carriage
returns (but not on other JS whitespace such as `\x0b`/`\x0c`, see the
counterexample).  Both functions are total Lean functions, which is the
model of the source's no-exception contract: the source's try/catch around
each direction converts any internal failure into `""`, and the verified
model needs no exceptional case at all. -/
theorem c6_amended :
    markdownToHtml none = "" ∧ markdownToHtml (some "") = "" ∧
    htmlToMarkdown none = "" ∧ htmlToMarkdown (some "") = "" ∧
    (∀ s : String, s.data.all isJsWs = true → htmlToMarkdown (some s) = "") ∧
    (∀ s : String, (∀ c ∈ s.data, c = ' ' ∨ c = '\t' ∨ c = '\n' ∨ c = '\r') →
      markdownToHtml (some s) = "") :=
  ⟨rfl, rfl, rfl, rfl, htmlToMarkdown_ws, markdownToHtml_ws⟩

/-- Claim C6, witness: the amended contract applied at the concrete
whitespace-only inputs `" \t\n"` and `"  \n"`. -/
theorem c6_amended_witness :
    htmlToMarkdown (some " \t\n") = "" ∧ markdownToHtml (some "  \n") = "" :=
  ⟨c6_amended.2.2.2.2.1 " \t\n" (by decide),
   c6_amended.2.2.2.2.2 "  \n" (by decide)⟩

/-- Claim C9, witness: the general label-wrapping fact applied to a concrete
inline token with content `[x] hi`. -/
theorem c9_label_mode_witness :
    (Tok.mk "inline" "" [] "hi"
        [ITok.mk "html_inline" (labelHtml ('x'.toLower = 'x') "hi")]
        false 0 false) ∈
      taskPassAux true [] true [Tok.mk "inline" "" [] "[x] hi" [] false 0 false] :=
  c9_label_mode.2.2.1 (Tok.mk "inline" "" [] "[x] hi" [] false 0 false) [] [] [] 'x'
    "hi".data rfl (by decide)

end MdConv

